import Mathlib

/-!
Verification of the centroid face tracker (`src/track/facetracker.py`).

The tracker state is two `OrderedDict`s (`objectsTracked : id → centroid`,
`disappeared : id → missed-frame count`), a fresh-id counter `nextObjectID`
and the configuration constant `maxDisappeared`.  `OrderedDict`s are embedded
as ordered association lists.

Modelling notes, each justified at its definition:
* scipy's euclidean distances are replaced by squared distances in exact
  integer arithmetic (`sqDist`) — every use the source makes of a distance is
  an order comparison, and squaring is order-preserving;
* numpy's `argsort` is modelled as a stable ascending sort (`argsortBy`);
  numpy's default quicksort is deterministic but leaves the order of equal
  keys unspecified;
* the `RuntimeError` CPython raises when an `OrderedDict` is structurally
  mutated during iteration is modelled explicitly in `emptyLoop`, since the
  `rect == []` branch deletes keys of `disappeared` while iterating it;
* Python's `int((a + b) / 2)` truncates toward zero, which is `Int.tdiv`
  (exact as long as `a + b` fits in a double's 53-bit mantissa, which any
  pixel coordinate does);
* the source iterates `unusedRows` and `unusedCols` as Python sets of small
  ints; iteration is modelled ascending, matching what CPython produces for
  small ints.  The order is observable only in which fresh id is paired with
  which unmatched detection, and no property below depends on it.
-/

namespace FaceTracker

/-- A centroid: a pair of integer pixel coordinates (the source stores
centroids in a numpy array of dtype `int`). -/
abbrev Point := Int × Int

/-- A detector bounding box `(beginX, beginY, endX, endY)`. -/
abbrev Box := Int × Int × Int × Int

/-- Assignment `d[k] = v` on an `OrderedDict`: an existing key keeps its
position and receives the new value, a new key is appended at the end. -/
def odSet (l : List (Nat × α)) (k : Nat) (v : α) : List (Nat × α) :=
  if l.any (fun p => p.1 == k) then
    l.map (fun p => if p.1 == k then (k, v) else p)
  else l ++ [(k, v)]

/-- Deletion `del d[k]` on an `OrderedDict`.  (The `KeyError` a missing key
would raise is not modelled: every `del` performed by the source is on a key
it just read from the dictionary.) -/
def odDel (l : List (Nat × α)) (k : Nat) : List (Nat × α) :=
  l.filter (fun p => p.1 != k)

/-- Lookup `d[k]`, total with a default; the source only reads keys that are
present. -/
def odGet [Inhabited α] (l : List (Nat × α)) (k : Nat) : α :=
  match l.find? (fun p => p.1 == k) with
  | some p => p.2
  | none => default

/-- The tracker state: `FaceTracker.__init__` fields. -/
structure TrackerState where
  nextObjectID : Nat
  objectsTracked : List (Nat × Point)
  disappeared : List (Nat × Nat)
  maxDisappeared : Nat
deriving Repr, DecidableEq

/-- `FaceTracker(maxDisappeared)`: `nextObjectID = 1`, both maps empty. -/
def mkTracker (maxDisappeared : Nat) : TrackerState :=
  ⟨1, [], [], maxDisappeared⟩

/-- `register`: store the centroid under the next available object id (a new
entry in both maps), then increment the id counter. -/
def register (st : TrackerState) (centroid : Point) : TrackerState :=
  { st with
    objectsTracked := odSet st.objectsTracked st.nextObjectID centroid
    disappeared := odSet st.disappeared st.nextObjectID 0
    nextObjectID := st.nextObjectID + 1 }

/-- `deregister`: delete the object id from both dictionaries. -/
def deregister (st : TrackerState) (objectID : Nat) : TrackerState :=
  { st with
    objectsTracked := odDel st.objectsTracked objectID
    disappeared := odDel st.disappeared objectID }

/-- The centroid of a box: `cX = int((beginX + endX) / 2)`,
`cY = int((beginY + endY) / 2)`.  Python's `int(x / 2)` truncates the true
quotient toward zero, i.e. T-division `Int.tdiv`. -/
def centroidOf (r : Box) : Point :=
  (Int.tdiv (r.1 + r.2.2.1) 2, Int.tdiv (r.2.1 + r.2.2.2) 2)

/-- Squared euclidean distance between two centroids.  The source computes
`scipy.spatial.distance.cdist(..., 'euclidean')`, the square root of this
value; the only uses made of the matrix are `min`, `argmin` and `argsort`,
all invariant under the strictly monotone square root, so the model keeps the
square, which stays in exact integer arithmetic.  (The float `sqrt` could
merge values that differ only beyond double precision; for pixel-scale
coordinates the two orders coincide.) -/
def sqDist (p q : Point) : Nat :=
  ((p.1 - q.1) * (p.1 - q.1) + (p.2 - q.2) * (p.2 - q.2)).toNat

/-- Minimum of a list of naturals (numpy `min` of a nonempty row; the source
only takes minima of nonempty rows). -/
def minList : List Nat → Nat
  | [] => 0
  | v :: vs => vs.foldl Nat.min v

/-- Helper for `argminList`: scan the tail keeping the first index attaining
the strictly smallest value seen. -/
def argminAux (best bestVal i : Nat) : List Nat → Nat
  | [] => best
  | v :: vs => if v < bestVal then argminAux i v (i + 1) vs
               else argminAux best bestVal (i + 1) vs

/-- numpy `argmin` of a row: index of the first occurrence of the minimum. -/
def argminList : List Nat → Nat
  | [] => 0
  | v :: vs => argminAux 0 v 1 vs

/-- Stable insertion of index `i` into an index list sorted ascending by
`key`: `i` goes after every index whose key is less than or equal to its
own. -/
def insRank (key : Nat → Nat) (i : Nat) : List Nat → List Nat
  | [] => [i]
  | j :: js => if key i < key j then i :: j :: js else j :: insRank key i js

/-- numpy `argsort` over `[0, n)`, ascending by `key`.  Modelled as a stable
sort; numpy's default quicksort is deterministic but does not document the
relative order of equal keys.  Every property proved below is insensitive to
the permutation chosen among equal keys. -/
def argsortBy (key : Nat → Nat) (n : Nat) : List Nat :=
  (List.range n).foldl (fun acc i => insRank key i acc) []

/-- The row of squared distances from one tracked centroid to every input
centroid (one row of `objDist`). -/
def distRow (oc : Point) (inputCentroid : List Point) : List Nat :=
  inputCentroid.map (sqDist oc)

/-- Accumulator of the greedy matching loop: the two `used` index sets and
the two dictionaries being mutated. -/
structure MatchAcc where
  usedRows : List Nat
  usedCols : List Nat
  objectsTracked : List (Nat × Point)
  disappeared : List (Nat × Nat)
deriving Repr, DecidableEq

/-- One iteration of `for row, col in zip(rows, cols)`: skip if the row or
the column was already examined, otherwise set the object's centroid to the
input centroid, reset its disappeared counter, and mark row and column
used. -/
def matchStep (objectIDs : List Nat) (inputCentroid : List Point)
    (acc : MatchAcc) (rc : Nat × Nat) : MatchAcc :=
  if rc.1 ∈ acc.usedRows ∨ rc.2 ∈ acc.usedCols then acc
  else
    ⟨rc.1 :: acc.usedRows, rc.2 :: acc.usedCols,
     odSet acc.objectsTracked (objectIDs.getD rc.1 0) (inputCentroid.getD rc.2 (0, 0)),
     odSet acc.disappeared (objectIDs.getD rc.1 0) 0⟩

/-- Body of the unused-rows loop: increment the object's disappeared counter
and deregister it when the counter exceeds `maxDisappeared`. -/
def missRow (st : TrackerState) (objectID : Nat) : TrackerState :=
  let d := odGet st.disappeared objectID + 1
  let st1 := { st with disappeared := odSet st.disappeared objectID d }
  if d > st1.maxDisappeared then deregister st1 objectID else st1

/-- The `rect == []` branch: walk the keys of `disappeared` in order,
incrementing each counter and deregistering on overflow.  CPython's
`OrderedDict` iterator raises `RuntimeError` at the `next()` call that
follows a structural mutation — unless the iterator is already exhausted —
so a deregistration anywhere but at the last key aborts the loop with the
exception, leaving every later key unincremented; a deregistration at the
last key completes normally.  (Plain value updates do not disturb the
iterator.)  The second component is the pending exception, `none` on normal
return. -/
def emptyLoop (st : TrackerState) : List Nat → TrackerState × Option String
  | [] => (st, none)
  | k :: ks =>
    let d := odGet st.disappeared k + 1
    let st1 := { st with disappeared := odSet st.disappeared k d }
    if d > st1.maxDisappeared then
      let st2 := deregister st1 k
      match ks with
      | [] => (st2, none)
      | _ :: _ => (st2, some "OrderedDict mutated during iteration")
    else emptyLoop st1 ks

/-- The local `objectIDs = list(self.objectsTracked.keys())`. -/
def trackedIds (st : TrackerState) : List Nat :=
  st.objectsTracked.map Prod.fst

/-- Row `r` of the distance matrix `objDist`: squared distances from the
`r`-th tracked centroid (`objectsCentroid[r]`) to every input centroid. -/
def dRowOf (st : TrackerState) (inputCentroid : List Point) (r : Nat) : List Nat :=
  distRow ((st.objectsTracked.map Prod.snd).getD r (0, 0)) inputCentroid

/-- `rows = objDist.min(axis=1).argsort()`. -/
def rowsOf (st : TrackerState) (inputCentroid : List Point) : List Nat :=
  argsortBy (fun r => minList (dRowOf st inputCentroid r)) st.objectsTracked.length

/-- `cols = objDist.argmin(axis=1)[rows]`. -/
def colsOf (st : TrackerState) (inputCentroid : List Point) : List Nat :=
  (rowsOf st inputCentroid).map (fun r => argminList (dRowOf st inputCentroid r))

/-- The state of `usedRows`, `usedCols` and the two dictionaries after the
`for row, col in zip(rows, cols)` loop. -/
def matchAccOf (st : TrackerState) (inputCentroid : List Point) : MatchAcc :=
  ((rowsOf st inputCentroid).zip (colsOf st inputCentroid)).foldl
    (matchStep (trackedIds st) inputCentroid)
    ⟨[], [], st.objectsTracked, st.disappeared⟩

/-- `update(rect)`.  Returns the state of the tracker when the call finishes
(mutations are applied in program order even when the call ends by raising)
together with the pending exception, `none` when the call returns normally
with `self.objectsTracked`.  The locals of the matching branch are the named
definitions above so that the theorems can speak about them. -/
def update (st : TrackerState) (rect : List Box) : TrackerState × Option String :=
  match rect with
  | [] => emptyLoop st (st.disappeared.map Prod.fst)
  | _ =>
    let inputCentroid := rect.map centroidOf
    if st.objectsTracked.length == 0 then
      (inputCentroid.foldl register st, none)
    else
      let n := st.objectsTracked.length
      let m := inputCentroid.length
      if n * m > 0 then
        let acc := matchAccOf st inputCentroid
        let st1 := { st with objectsTracked := acc.objectsTracked,
                             disappeared := acc.disappeared }
        let unusedRows := (List.range n).filter (fun r => r ∉ acc.usedRows)
        let unusedCols := (List.range m).filter (fun c => c ∉ acc.usedCols)
        if n ≥ m then
          (unusedRows.foldl (fun s r => missRow s ((trackedIds st).getD r 0)) st1, none)
        else
          (unusedCols.foldl (fun s c => register s (inputCentroid.getD c (0, 0))) st1, none)
      else (st, none)

/-- The state after an `update` call, whether or not it raised. -/
def updateSt (st : TrackerState) (rect : List Box) : TrackerState :=
  (update st rect).1

/-- Observation used by the theorems: the value the dictionary binds to `k`,
if any. -/
def lookupId (l : List (Nat × α)) (k : Nat) : Option α :=
  (l.find? (fun p => p.1 == k)).map Prod.snd

/-- The key list of a dictionary. -/
def odKeys (l : List (Nat × α)) : List Nat := l.map Prod.fst

/-- The well-formedness invariants the spec's data model states: both maps
have the same keys in the same order, ids are pairwise distinct, and every id
is below the id counter. -/
def WF (st : TrackerState) : Prop :=
  odKeys st.objectsTracked = odKeys st.disappeared ∧
  (odKeys st.objectsTracked).Nodup ∧
  ∀ id ∈ odKeys st.objectsTracked, id < st.nextObjectID

instance (st : TrackerState) : Decidable (WF st) := by
  unfold WF; infer_instance

/-- Index-and-value form of `argminAux`, used to reason about it: carries the
current best value alongside the current best index. -/
def argminValAux (bv : Nat × Nat) (i : Nat) : List Nat → Nat × Nat
  | [] => bv
  | v :: vs => if v < bv.2 then argminValAux (i, v) (i + 1) vs
               else argminValAux bv (i + 1) vs

/-- The pairs the `zip(rows, cols)` loop accepts (does not skip), given the
rows and columns already consumed: the pure recursion underlying the
`matchStep` fold. -/
def acceptedPairs : List (Nat × Nat) → List Nat → List Nat → List (Nat × Nat)
  | [], _, _ => []
  | rc :: rest, ur, uc =>
    if rc.1 ∈ ur ∨ rc.2 ∈ uc then acceptedPairs rest ur uc
    else rc :: acceptedPairs rest (rc.1 :: ur) (rc.2 :: uc)

/-- Run a sequence of frames through the tracker (one `update` per frame),
keeping the state each call leaves behind. -/
def runFrames (st : TrackerState) (frames : List (List Box)) : TrackerState :=
  frames.foldl updateSt st

/-- The sequence of `(row, col)` pairs the matching loop walks. -/
def pairsOf (st : TrackerState) (inputCentroid : List Point) : List (Nat × Nat) :=
  (rowsOf st inputCentroid).zip (colsOf st inputCentroid)

/-- The pairs the matching loop accepts (assigns), in walk order. -/
def acceptedOf (st : TrackerState) (inputCentroid : List Point) : List (Nat × Nat) :=
  acceptedPairs (pairsOf st inputCentroid) [] []

/-- The association-list writes the accepted pairs perform on
`objectsTracked`. -/
def trackedWrites (st : TrackerState) (inputCentroid : List Point) :
    List (Nat × Point) :=
  (acceptedOf st inputCentroid).map
    (fun rc => ((trackedIds st).getD rc.1 0, inputCentroid.getD rc.2 (0, 0)))

/-- The association-list writes the accepted pairs perform on `disappeared`. -/
def disapWrites (st : TrackerState) (inputCentroid : List Point) :
    List (Nat × Nat) :=
  (acceptedOf st inputCentroid).map (fun rc => ((trackedIds st).getD rc.1 0, 0))

end FaceTracker

namespace FaceTracker

example : centroidOf (0, 0, 2, 0) = (1, 0) := by decide

example : centroidOf (-1, -1, -2, -2) = (-1, -1) := by decide

example :
    update (mkTracker 13) [(0, 0, 2, 0), (4, 0, 6, 0)] =
      (⟨3, [(1, (1, 0)), (2, (5, 0))], [(1, 0), (2, 0)], 13⟩, none) := by decide

example :
    update ⟨3, [(1, (1, 0)), (2, (5, 0))], [(1, 13), (2, 13)], 13⟩ [] =
      (⟨3, [(2, (5, 0))], [(2, 13)], 13⟩, some "OrderedDict mutated during iteration") := by
  decide

-- Two tracked objects whose nearest detection is the same one, three
-- detections: object 2's argmin column (0) is consumed by object 1, the
-- row-count (2) is below the column-count (3), so object 2 is left untouched
-- and BOTH unmatched detections are registered.
example :
    update ⟨3, [(1, (0, 0)), (2, (1, 0))], [(1, 0), (2, 0)], 13⟩
        [(0, 0, 0, 0), (50, 50, 50, 50), (60, 60, 60, 60)] =
      (⟨5, [(1, (0, 0)), (2, (1, 0)), (3, (50, 50)), (4, (60, 60))],
        [(1, 0), (2, 0), (3, 0), (4, 0)], 13⟩, none) := by decide

-- Three tracked objects, one detection: the nearest object is matched, the
-- other two are incremented, no registration.
example :
    update ⟨4, [(1, (0, 0)), (2, (10, 0)), (3, (20, 0))], [(1, 0), (2, 0), (3, 0)], 13⟩
        [(9, 0, 9, 0)] =
      (⟨4, [(1, (0, 0)), (2, (9, 0)), (3, (20, 0))], [(1, 1), (2, 0), (3, 1)], 13⟩,
       none) := by decide

/-! ### Association-list (`OrderedDict`) lemmas -/

lemma odKeys_nil : odKeys ([] : List (Nat × α)) = [] := rfl

lemma odKeys_cons (p : Nat × α) (l : List (Nat × α)) :
    odKeys (p :: l) = p.1 :: odKeys l := rfl

lemma odKeys_append (l1 l2 : List (Nat × α)) :
    odKeys (l1 ++ l2) = odKeys l1 ++ odKeys l2 := by
  simp [odKeys]

lemma lookupId_cons (p : Nat × α) (l : List (Nat × α)) (k : Nat) :
    lookupId (p :: l) k = if p.1 = k then some p.2 else lookupId l k := by
  by_cases h : p.1 = k <;> simp [lookupId, List.find?_cons, h]

lemma lookupId_eq_none_iff (l : List (Nat × α)) (k : Nat) :
    lookupId l k = none ↔ k ∉ odKeys l := by
  induction l with
  | nil => simp [lookupId, odKeys]
  | cons p l ih =>
    rw [lookupId_cons, odKeys_cons]
    by_cases h : p.1 = k
    · simp [h]
    · have h' : ¬ k = p.1 := fun he => h he.symm
      simp [h, h', ih]

lemma lookupId_isSome_iff (l : List (Nat × α)) (k : Nat) :
    (lookupId l k).isSome ↔ k ∈ odKeys l := by
  rw [Option.isSome_iff_ne_none, ne_eq, lookupId_eq_none_iff, not_not]

lemma odHas_iff (l : List (Nat × α)) (k : Nat) :
    l.any (fun p => p.1 == k) = true ↔ k ∈ odKeys l := by
  simp [List.any_eq_true, odKeys, List.mem_map]

lemma odSet_of_mem {l : List (Nat × α)} {k : Nat} (h : k ∈ odKeys l) (v : α) :
    odSet l k v = l.map (fun p => if p.1 == k then (k, v) else p) := by
  have hA : l.any (fun p => p.1 == k) = true := (odHas_iff l k).2 h
  simp [odSet, hA]

lemma odSet_of_notmem {l : List (Nat × α)} {k : Nat} (h : k ∉ odKeys l) (v : α) :
    odSet l k v = l ++ [(k, v)] := by
  cases hA : l.any (fun p => p.1 == k) with
  | true => exact absurd ((odHas_iff l k).1 hA) h
  | false => simp [odSet, hA]

lemma odKeys_odSet_of_mem {l : List (Nat × α)} {k : Nat} (h : k ∈ odKeys l) (v : α) :
    odKeys (odSet l k v) = odKeys l := by
  rw [odSet_of_mem h, odKeys, odKeys, List.map_map]
  apply List.map_congr_left
  intro p _
  by_cases hp : p.1 = k <;> simp [hp]

lemma odKeys_odSet_of_notmem {l : List (Nat × α)} {k : Nat} (h : k ∉ odKeys l) (v : α) :
    odKeys (odSet l k v) = odKeys l ++ [k] := by
  rw [odSet_of_notmem h, odKeys_append]; rfl

lemma lookupId_map_set_self (l : List (Nat × α)) (k : Nat) (v : α) :
    lookupId (l.map (fun p => if p.1 == k then (k, v) else p)) k =
      if k ∈ odKeys l then some v else none := by
  induction l with
  | nil => simp [lookupId, odKeys]
  | cons p l ih =>
    by_cases hp : p.1 = k
    · have hh : ((if (p.1 == k) = true then (k, v) else p) : Nat × α) = (k, v) := by
        simp [hp]
      have hmem : k ∈ odKeys (p :: l) := by
        rw [odKeys_cons, ← hp]
        exact List.mem_cons_self _ _
      rw [List.map_cons, hh, lookupId_cons, if_pos rfl, if_pos hmem]
    · have hh : ((if (p.1 == k) = true then (k, v) else p) : Nat × α) = p := by
        simp [hp]
      have h' : ¬ k = p.1 := fun he => hp he.symm
      rw [List.map_cons, hh, lookupId_cons, if_neg hp, ih, odKeys_cons]
      simp [h']

lemma lookupId_append_single_self (l : List (Nat × α)) (k : Nat) (v : α)
    (h : k ∉ odKeys l) : lookupId (l ++ [(k, v)]) k = some v := by
  induction l with
  | nil => simp [lookupId_cons]
  | cons p l ih =>
    rw [odKeys_cons, List.mem_cons, not_or] at h
    rw [List.cons_append, lookupId_cons, if_neg (fun he => h.1 he.symm)]
    exact ih h.2

lemma lookupId_append_single_ne (l : List (Nat × α)) {k k' : Nat} (h : k' ≠ k) (v : α) :
    lookupId (l ++ [(k, v)]) k' = lookupId l k' := by
  induction l with
  | nil =>
    rw [List.nil_append, lookupId_cons, if_neg (fun he => h he.symm)]
  | cons p l ih =>
    rw [List.cons_append, lookupId_cons, lookupId_cons]
    by_cases hpk : p.1 = k' <;> simp [hpk, ih]

lemma lookupId_odSet_self (l : List (Nat × α)) (k : Nat) (v : α) :
    lookupId (odSet l k v) k = some v := by
  by_cases h : k ∈ odKeys l
  · rw [odSet_of_mem h, lookupId_map_set_self, if_pos h]
  · rw [odSet_of_notmem h]
    exact lookupId_append_single_self l k v h

lemma lookupId_map_set_ne (l : List (Nat × α)) {k k' : Nat} (h : k' ≠ k) (v : α) :
    lookupId (l.map (fun p => if p.1 == k then (k, v) else p)) k' = lookupId l k' := by
  induction l with
  | nil => rfl
  | cons p l ih =>
    by_cases hp : p.1 = k
    · have hh : ((if (p.1 == k) = true then (k, v) else p) : Nat × α) = (k, v) := by
        simp [hp]
      rw [List.map_cons, hh, lookupId_cons, lookupId_cons,
        if_neg (fun he => h he.symm), if_neg (fun he => h (hp.symm.trans he).symm)]
      exact ih
    · have hh : ((if (p.1 == k) = true then (k, v) else p) : Nat × α) = p := by
        simp [hp]
      rw [List.map_cons, hh, lookupId_cons, lookupId_cons]
      by_cases hpk : p.1 = k'
      · rw [if_pos hpk, if_pos hpk]
      · rw [if_neg hpk, if_neg hpk]
        exact ih

lemma lookupId_odSet_ne (l : List (Nat × α)) {k k' : Nat} (h : k' ≠ k) (v : α) :
    lookupId (odSet l k v) k' = lookupId l k' := by
  by_cases hm : k ∈ odKeys l
  · rw [odSet_of_mem hm]
    exact lookupId_map_set_ne l h v
  · rw [odSet_of_notmem hm]
    exact lookupId_append_single_ne l h v

lemma odKeys_odDel (l : List (Nat × α)) (k : Nat) :
    odKeys (odDel l k) = (odKeys l).filter (fun x => x != k) := by
  induction l with
  | nil => rfl
  | cons p l ih =>
    show odKeys ((p :: l).filter (fun q => q.1 != k)) = _
    rw [List.filter_cons, odKeys_cons, List.filter_cons]
    by_cases hp : p.1 = k
    · rw [if_neg (by simp [hp]), if_neg (by simp [hp])]
      exact ih
    · rw [if_pos (by simp [hp]), if_pos (by simp [hp]), odKeys_cons]
      exact congrArg (fun t => p.1 :: t) ih

lemma lookupId_odDel_self (l : List (Nat × α)) (k : Nat) :
    lookupId (odDel l k) k = none := by
  rw [lookupId_eq_none_iff, odKeys_odDel]
  simp

lemma lookupId_odDel_ne (l : List (Nat × α)) {k k' : Nat} (h : k' ≠ k) :
    lookupId (odDel l k) k' = lookupId l k' := by
  induction l with
  | nil => rfl
  | cons p l ih =>
    show lookupId ((p :: l).filter (fun q => q.1 != k)) k' = _
    rw [List.filter_cons]
    by_cases hp : p.1 = k
    · rw [if_neg (by simp [hp]), lookupId_cons,
        if_neg (fun he => h (hp.symm.trans he).symm)]
      exact ih
    · rw [if_pos (by simp [hp]), lookupId_cons, lookupId_cons]
      by_cases hpk : p.1 = k'
      · rw [if_pos hpk, if_pos hpk]
      · rw [if_neg hpk, if_neg hpk]
        exact ih

lemma odGet_eq_lookupId [Inhabited α] (l : List (Nat × α)) (k : Nat) :
    odGet l k = (lookupId l k).getD default := by
  unfold odGet lookupId
  cases h : l.find? (fun p => p.1 == k) <;> simp [h]

lemma getD_mem (l : List α) (i : Nat) (d : α) (h : i < l.length) : l.getD i d ∈ l := by
  induction l generalizing i with
  | nil => simp at h
  | cons x l ih =>
    cases i with
    | zero => simp
    | succ n =>
      rw [List.getD_cons_succ]
      exact List.mem_cons_of_mem _ (ih n (by simpa using h))

/-! ### `min`, `argmin`, `argsort` lemmas -/

lemma foldl_min_le_init (l : List Nat) (a : Nat) : l.foldl Nat.min a ≤ a := by
  induction l generalizing a with
  | nil => exact le_rfl
  | cons v vs ih => exact le_trans (ih (Nat.min a v)) (Nat.min_le_left a v)

lemma foldl_min_le_mem (l : List Nat) : ∀ (a v : Nat), v ∈ l → l.foldl Nat.min a ≤ v := by
  induction l with
  | nil => intro a v hv; simp at hv
  | cons x xs ih =>
    intro a v hv
    rcases List.mem_cons.mp hv with rfl | hm
    · exact le_trans (foldl_min_le_init xs (Nat.min a v)) (Nat.min_le_right a v)
    · exact ih (Nat.min a x) v hm

lemma minList_le_getD (l : List Nat) (j : Nat) (hj : j < l.length) :
    minList l ≤ l.getD j 0 := by
  cases l with
  | nil => simp at hj
  | cons v vs =>
    cases j with
    | zero => exact foldl_min_le_init vs v
    | succ j' =>
      rw [List.getD_cons_succ]
      exact foldl_min_le_mem vs v _ (getD_mem vs j' 0 (by simpa using hj))

lemma argminAux_eq_fst (l : List Nat) : ∀ (b bv i : Nat),
    argminAux b bv i l = (argminValAux (b, bv) i l).1 := by
  induction l with
  | nil => intro b bv i; rfl
  | cons v vs ih =>
    intro b bv i
    simp only [argminAux, argminValAux]
    by_cases hlt : v < bv
    · rw [if_pos hlt, if_pos hlt]
      exact ih i v (i + 1)
    · rw [if_neg hlt, if_neg hlt]
      exact ih b bv (i + 1)

lemma argminValAux_snd (l : List Nat) : ∀ (b bv i : Nat),
    (argminValAux (b, bv) i l).2 = l.foldl Nat.min bv := by
  induction l with
  | nil => intro b bv i; rfl
  | cons v vs ih =>
    intro b bv i
    simp only [argminValAux, List.foldl_cons]
    by_cases hlt : v < bv
    · rw [if_pos hlt, ih]
      have hm : Nat.min bv v = v := Nat.min_eq_right (le_of_lt hlt)
      rw [hm]
    · rw [if_neg hlt, ih]
      have hm : Nat.min bv v = bv := Nat.min_eq_left (Nat.le_of_not_lt hlt)
      rw [hm]

lemma argminValAux_consistent (l : List Nat) : ∀ (b bv i : Nat),
    argminValAux (b, bv) i l = (b, bv) ∨
    ∃ j, j < l.length ∧ argminValAux (b, bv) i l = (i + j, l.getD j 0) := by
  induction l with
  | nil => intro b bv i; exact Or.inl rfl
  | cons v vs ih =>
    intro b bv i
    simp only [argminValAux]
    by_cases hlt : v < bv
    · rw [if_pos hlt]
      rcases ih i v (i + 1) with he | ⟨j, hj, he⟩
      · exact Or.inr ⟨0, Nat.succ_pos _, by rw [he]; simp⟩
      · refine Or.inr ⟨j + 1, by simpa using Nat.succ_lt_succ hj, ?_⟩
        rw [he, List.getD_cons_succ]
        have : i + 1 + j = i + (j + 1) := by omega
        rw [this]
    · rw [if_neg hlt]
      rcases ih b bv (i + 1) with he | ⟨j, hj, he⟩
      · exact Or.inl he
      · refine Or.inr ⟨j + 1, by simpa using Nat.succ_lt_succ hj, ?_⟩
        rw [he, List.getD_cons_succ]
        have : i + 1 + j = i + (j + 1) := by omega
        rw [this]

lemma argminList_lt_length (l : List Nat) (h : l ≠ []) : argminList l < l.length := by
  cases l with
  | nil => exact absurd rfl h
  | cons v vs =>
    rw [argminList, argminAux_eq_fst]
    rcases argminValAux_consistent vs 0 v 1 with he | ⟨j, hj, he⟩
    · rw [he]; simp
    · rw [he]
      simp only [List.length_cons]
      omega

lemma getD_argminList (l : List Nat) (h : l ≠ []) :
    l.getD (argminList l) 0 = minList l := by
  cases l with
  | nil => exact absurd rfl h
  | cons v vs =>
    rw [argminList, argminAux_eq_fst, minList]
    have hsnd := argminValAux_snd vs 0 v 1
    rcases argminValAux_consistent vs 0 v 1 with he | ⟨j, hj, he⟩
    · rw [he] at hsnd ⊢
      simpa using hsnd
    · rw [he] at hsnd ⊢
      have h1j : (1 : Nat) + j = j + 1 := by omega
      simp only [h1j, List.getD_cons_succ]
      simpa using hsnd

lemma insRank_perm (key : Nat → Nat) (i : Nat) (l : List Nat) :
    List.Perm (insRank key i l) (i :: l) := by
  induction l with
  | nil => exact List.Perm.refl _
  | cons j js ih =>
    rw [insRank]
    by_cases hlt : key i < key j
    · rw [if_pos hlt]
    · rw [if_neg hlt]
      exact (List.Perm.cons j ih).trans (List.Perm.swap i j js)

lemma foldl_insRank_perm (key : Nat → Nat) (l : List Nat) :
    ∀ acc : List Nat,
      List.Perm (l.foldl (fun acc i => insRank key i acc) acc) (l ++ acc) := by
  induction l with
  | nil => intro acc; exact List.Perm.refl _
  | cons x xs ih =>
    intro acc
    rw [List.foldl_cons]
    refine (ih (insRank key x acc)).trans ?_
    refine (List.Perm.append_left xs (insRank_perm key x acc)).trans ?_
    exact List.perm_middle

lemma argsortBy_perm (key : Nat → Nat) (n : Nat) :
    List.Perm (argsortBy key n) (List.range n) := by
  have h := foldl_insRank_perm key (List.range n) []
  rw [List.append_nil] at h
  exact h

lemma insRank_pairwise (key : Nat → Nat) (i : Nat) (l : List Nat)
    (h : l.Pairwise (fun a b => key a ≤ key b)) :
    (insRank key i l).Pairwise (fun a b => key a ≤ key b) := by
  induction l with
  | nil => simp [insRank]
  | cons j js ih =>
    rw [List.pairwise_cons] at h
    rw [insRank]
    by_cases hlt : key i < key j
    · rw [if_pos hlt]
      rw [List.pairwise_cons]
      refine ⟨?_, List.pairwise_cons.mpr h⟩
      intro b hb
      rcases List.mem_cons.mp hb with rfl | hm
      · exact le_of_lt hlt
      · exact le_of_lt (lt_of_lt_of_le hlt (h.1 b hm))
    · rw [if_neg hlt]
      rw [List.pairwise_cons]
      refine ⟨?_, ih h.2⟩
      intro b hb
      have hmem := (insRank_perm key i js).mem_iff.mp hb
      rcases List.mem_cons.mp hmem with rfl | hm
      · exact Nat.le_of_not_lt hlt
      · exact h.1 b hm

lemma argsortBy_pairwise (key : Nat → Nat) (n : Nat) :
    (argsortBy key n).Pairwise (fun a b => key a ≤ key b) := by
  have main : ∀ (l acc : List Nat),
      acc.Pairwise (fun a b => key a ≤ key b) →
      (l.foldl (fun acc i => insRank key i acc) acc).Pairwise
        (fun a b => key a ≤ key b) := by
    intro l
    induction l with
    | nil => intro acc h; simpa using h
    | cons x xs ih => intro acc h; exact ih _ (insRank_pairwise key x acc h)
  exact main (List.range n) [] (by simp)

/-! ### Greedy-pass (`acceptedPairs`) lemmas -/

lemma acceptedPairs_sublist (ps : List (Nat × Nat)) :
    ∀ ur uc, (acceptedPairs ps ur uc).Sublist ps := by
  induction ps with
  | nil => intro ur uc; simp [acceptedPairs]
  | cons rc rest ih =>
    intro ur uc
    rw [acceptedPairs]
    by_cases hc : rc.1 ∈ ur ∨ rc.2 ∈ uc
    · rw [if_pos hc]
      exact (ih ur uc).cons rc
    · rw [if_neg hc]
      exact (ih _ _).cons₂ rc

lemma acceptedPairs_fst_notmem (ps : List (Nat × Nat)) :
    ∀ ur uc r, r ∈ (acceptedPairs ps ur uc).map Prod.fst → r ∉ ur := by
  induction ps with
  | nil => intro ur uc r h; simp [acceptedPairs] at h
  | cons rc rest ih =>
    intro ur uc r h
    rw [acceptedPairs] at h
    by_cases hc : rc.1 ∈ ur ∨ rc.2 ∈ uc
    · rw [if_pos hc] at h
      exact ih ur uc r h
    · rw [if_neg hc] at h
      rw [List.map_cons, List.mem_cons] at h
      rcases h with rfl | hm
      · exact fun hr => hc (Or.inl hr)
      · exact fun hr => ih _ _ r hm (List.mem_cons_of_mem _ hr)

lemma acceptedPairs_snd_notmem (ps : List (Nat × Nat)) :
    ∀ ur uc c, c ∈ (acceptedPairs ps ur uc).map Prod.snd → c ∉ uc := by
  induction ps with
  | nil => intro ur uc c h; simp [acceptedPairs] at h
  | cons rc rest ih =>
    intro ur uc c h
    rw [acceptedPairs] at h
    by_cases hc : rc.1 ∈ ur ∨ rc.2 ∈ uc
    · rw [if_pos hc] at h
      exact ih ur uc c h
    · rw [if_neg hc] at h
      rw [List.map_cons, List.mem_cons] at h
      rcases h with rfl | hm
      · exact fun hr => hc (Or.inr hr)
      · exact fun hr => ih _ _ c hm (List.mem_cons_of_mem _ hr)

lemma acceptedPairs_fst_nodup (ps : List (Nat × Nat)) :
    ∀ ur uc, ((acceptedPairs ps ur uc).map Prod.fst).Nodup := by
  induction ps with
  | nil => intro ur uc; simp [acceptedPairs]
  | cons rc rest ih =>
    intro ur uc
    rw [acceptedPairs]
    by_cases hc : rc.1 ∈ ur ∨ rc.2 ∈ uc
    · rw [if_pos hc]
      exact ih ur uc
    · rw [if_neg hc]
      rw [List.map_cons, List.nodup_cons]
      exact ⟨fun hmem => acceptedPairs_fst_notmem rest _ _ rc.1 hmem
        (List.mem_cons_self _ _), ih _ _⟩

lemma acceptedPairs_snd_nodup (ps : List (Nat × Nat)) :
    ∀ ur uc, ((acceptedPairs ps ur uc).map Prod.snd).Nodup := by
  induction ps with
  | nil => intro ur uc; simp [acceptedPairs]
  | cons rc rest ih =>
    intro ur uc
    rw [acceptedPairs]
    by_cases hc : rc.1 ∈ ur ∨ rc.2 ∈ uc
    · rw [if_pos hc]
      exact ih ur uc
    · rw [if_neg hc]
      rw [List.map_cons, List.nodup_cons]
      exact ⟨fun hmem => acceptedPairs_snd_notmem rest _ _ rc.2 hmem
        (List.mem_cons_self _ _), ih _ _⟩

lemma foldl_matchStep_eq (ids : List Nat) (cents : List Point) (ps : List (Nat × Nat)) :
    ∀ (ur uc : List Nat) (t : List (Nat × Point)) (d : List (Nat × Nat)),
    ps.foldl (matchStep ids cents) ⟨ur, uc, t, d⟩ =
      ⟨((acceptedPairs ps ur uc).map Prod.fst).reverse ++ ur,
       ((acceptedPairs ps ur uc).map Prod.snd).reverse ++ uc,
       (acceptedPairs ps ur uc).foldl
         (fun t rc => odSet t (ids.getD rc.1 0) (cents.getD rc.2 (0, 0))) t,
       (acceptedPairs ps ur uc).foldl
         (fun d rc => odSet d (ids.getD rc.1 0) 0) d⟩ := by
  induction ps with
  | nil => intro ur uc t d; simp [acceptedPairs]
  | cons rc rest ih =>
    intro ur uc t d
    rw [List.foldl_cons, acceptedPairs]
    by_cases hc : rc.1 ∈ ur ∨ rc.2 ∈ uc
    · rw [if_pos hc]
      have hstep : matchStep ids cents ⟨ur, uc, t, d⟩ rc = ⟨ur, uc, t, d⟩ := by
        simp only [matchStep]
        rw [if_pos hc]
      rw [hstep]
      exact ih ur uc t d
    · rw [if_neg hc]
      have hstep : matchStep ids cents ⟨ur, uc, t, d⟩ rc =
          ⟨rc.1 :: ur, rc.2 :: uc,
           odSet t (ids.getD rc.1 0) (cents.getD rc.2 (0, 0)),
           odSet d (ids.getD rc.1 0) 0⟩ := by
        simp only [matchStep]
        rw [if_neg hc]
      rw [hstep, ih]
      simp [List.foldl_cons, List.reverse_cons, List.append_assoc]

lemma nodup_getD_inj (l : List Nat) (h : l.Nodup) {i j : Nat}
    (hi : i < l.length) (hj : j < l.length) (he : l.getD i 0 = l.getD j 0) : i = j := by
  induction l generalizing i j with
  | nil => simp at hi
  | cons x l ih =>
    obtain ⟨hx, hl⟩ := List.nodup_cons.mp h
    cases i with
    | zero =>
      cases j with
      | zero => rfl
      | succ j' =>
        exfalso
        rw [List.getD_cons_zero, List.getD_cons_succ] at he
        exact hx (he ▸ getD_mem l j' 0 (by simpa using hj))
    | succ i' =>
      cases j with
      | zero =>
        exfalso
        rw [List.getD_cons_succ, List.getD_cons_zero] at he
        exact hx (he ▸ getD_mem l i' 0 (by simpa using hi))
      | succ j' =>
        rw [List.getD_cons_succ, List.getD_cons_succ] at he
        exact congrArg Nat.succ (ih hl (by simpa using hi) (by simpa using hj) he)

/-! ### Sequences of `odSet` writes -/

lemma lookupId_foldl_writes_notmem {β : Type} :
    ∀ (ws : List (Nat × β)) (t : List (Nat × β)) (id : Nat), id ∉ odKeys ws →
      lookupId (ws.foldl (fun t kv => odSet t kv.1 kv.2) t) id = lookupId t id := by
  intro ws
  induction ws with
  | nil => intro t id _; rfl
  | cons kv rest ih =>
    intro t id h
    rw [odKeys_cons, List.mem_cons, not_or] at h
    rw [List.foldl_cons, ih _ id h.2, lookupId_odSet_ne t h.1 kv.2]

lemma lookupId_foldl_writes_mem {β : Type} :
    ∀ (ws : List (Nat × β)) (t : List (Nat × β)) (id : Nat) (v : β),
      (id, v) ∈ ws → (odKeys ws).Nodup →
      lookupId (ws.foldl (fun t kv => odSet t kv.1 kv.2) t) id = some v := by
  intro ws
  induction ws with
  | nil => intro t id v hm _; simp at hm
  | cons kv rest ih =>
    intro t id v hm hnd
    rw [odKeys_cons, List.nodup_cons] at hnd
    rw [List.foldl_cons]
    rcases List.mem_cons.mp hm with rfl | hrest
    · rw [lookupId_foldl_writes_notmem rest _ id hnd.1]
      exact lookupId_odSet_self t id v
    · have hid : id ∈ odKeys rest := by
        rw [odKeys]
        exact List.mem_map.mpr ⟨(id, v), hrest, rfl⟩
      exact ih _ id v hrest hnd.2

lemma odKeys_foldl_writes {β : Type} :
    ∀ (ws : List (Nat × β)) (t : List (Nat × β)),
      (∀ k ∈ odKeys ws, k ∈ odKeys t) →
      odKeys (ws.foldl (fun t kv => odSet t kv.1 kv.2) t) = odKeys t := by
  intro ws
  induction ws with
  | nil => intro t _; rfl
  | cons kv rest ih =>
    intro t h
    rw [List.foldl_cons, ih _ ?_, odKeys_odSet_of_mem (h kv.1 (by rw [odKeys_cons]; exact List.mem_cons_self _ _)) kv.2]
    intro k hk
    rw [odKeys_odSet_of_mem (h kv.1 (by rw [odKeys_cons]; exact List.mem_cons_self _ _)) kv.2]
    exact h k (by rw [odKeys_cons]; exact List.mem_cons_of_mem _ hk)

/-! ### `register` lemmas -/

lemma register_eq (st : TrackerState) (c : Point)
    (h1 : st.nextObjectID ∉ odKeys st.objectsTracked)
    (h2 : st.nextObjectID ∉ odKeys st.disappeared) :
    register st c = ⟨st.nextObjectID + 1,
      st.objectsTracked ++ [(st.nextObjectID, c)],
      st.disappeared ++ [(st.nextObjectID, 0)],
      st.maxDisappeared⟩ := by
  unfold register
  rw [odSet_of_notmem h1, odSet_of_notmem h2]

lemma register_nextId (st : TrackerState) (c : Point) :
    (register st c).nextObjectID = st.nextObjectID + 1 := rfl

lemma foldl_register_nextId :
    ∀ (cs : List Point) (st : TrackerState),
      (cs.foldl register st).nextObjectID = st.nextObjectID + cs.length := by
  intro cs
  induction cs with
  | nil => intro st; rfl
  | cons c cs ih =>
    intro st
    rw [List.foldl_cons, ih, register_nextId, List.length_cons]
    omega

lemma foldl_register_max :
    ∀ (cs : List Point) (st : TrackerState),
      (cs.foldl register st).maxDisappeared = st.maxDisappeared := by
  intro cs
  induction cs with
  | nil => intro st; rfl
  | cons c cs ih =>
    intro st
    rw [List.foldl_cons, ih]
    rfl

lemma register_ids (st : TrackerState) (c : Point) (id : Nat)
    (h : id ∈ odKeys (register st c).objectsTracked) :
    id ∈ odKeys st.objectsTracked ∨ id = st.nextObjectID := by
  unfold register at h
  by_cases hm : st.nextObjectID ∈ odKeys st.objectsTracked
  · rw [odKeys_odSet_of_mem hm c] at h
    exact Or.inl h
  · rw [odKeys_odSet_of_notmem hm c] at h
    rcases List.mem_append.mp h with hl | hr
    · exact Or.inl hl
    · exact Or.inr (by simpa using hr)

lemma register_disap_ids (st : TrackerState) (c : Point) (id : Nat)
    (h : id ∈ odKeys (register st c).disappeared) :
    id ∈ odKeys st.disappeared ∨ id = st.nextObjectID := by
  unfold register at h
  by_cases hm : st.nextObjectID ∈ odKeys st.disappeared
  · rw [odKeys_odSet_of_mem hm 0] at h
    exact Or.inl h
  · rw [odKeys_odSet_of_notmem hm 0] at h
    rcases List.mem_append.mp h with hl | hr
    · exact Or.inl hl
    · exact Or.inr (by simpa using hr)

lemma foldl_register_ids :
    ∀ (cs : List Point) (st : TrackerState) (id : Nat),
      id ∈ odKeys (cs.foldl register st).objectsTracked →
      id ∈ odKeys st.objectsTracked ∨ st.nextObjectID ≤ id := by
  intro cs
  induction cs with
  | nil => intro st id h; exact Or.inl h
  | cons c cs ih =>
    intro st id h
    rw [List.foldl_cons] at h
    rcases ih (register st c) id h with hm | hge
    · rcases register_ids st c id hm with hm' | he
      · exact Or.inl hm'
      · exact Or.inr (le_of_eq he.symm)
    · rw [register_nextId] at hge
      exact Or.inr (by omega)

/-- The exact shape of a `register` fold from a state whose ids are all below
the counter (the fresh-id invariant): new entries are appended in supply
order with consecutive ids. -/
lemma foldl_register_eq :
    ∀ (cs : List Point) (st : TrackerState),
      (∀ id ∈ odKeys st.objectsTracked, id < st.nextObjectID) →
      (∀ id ∈ odKeys st.disappeared, id < st.nextObjectID) →
      cs.foldl register st =
        ⟨st.nextObjectID + cs.length,
         st.objectsTracked ++ (List.range cs.length).map
           (fun i => (st.nextObjectID + i, cs.getD i (0, 0))),
         st.disappeared ++ (List.range cs.length).map
           (fun i => (st.nextObjectID + i, (0 : Nat))),
         st.maxDisappeared⟩ := by
  intro cs
  induction cs with
  | nil =>
    intro st h1 h2
    cases st with
    | mk a b c d => simp
  | cons c0 cs ih =>
    intro st h1 h2
    have hfresh1 : st.nextObjectID ∉ odKeys st.objectsTracked :=
      fun hm => absurd (h1 _ hm) (lt_irrefl _)
    have hfresh2 : st.nextObjectID ∉ odKeys st.disappeared :=
      fun hm => absurd (h2 _ hm) (lt_irrefl _)
    have hA : ∀ id ∈ odKeys (register st c0).objectsTracked,
        id < (register st c0).nextObjectID := by
      intro id hm
      rw [register_nextId]
      rcases register_ids st c0 id hm with hl | he
      · have := h1 _ hl
        omega
      · omega
    have hB : ∀ id ∈ odKeys (register st c0).disappeared,
        id < (register st c0).nextObjectID := by
      intro id hm
      rw [register_nextId]
      rcases register_disap_ids st c0 id hm with hl | he
      · have := h2 _ hl
        omega
      · omega
    rw [List.foldl_cons, ih (register st c0) hA hB, register_eq st c0 hfresh1 hfresh2]
    simp only [TrackerState.mk.injEq]
    refine ⟨by simp only [List.length_cons]; omega, ?_, ?_, trivial⟩
    · rw [List.append_assoc]
      congr 1
      simp only [List.length_cons]
      rw [List.range_succ_eq_map, List.map_cons, List.map_map]
      simp only [Nat.add_zero, List.getD_cons_zero, List.singleton_append]
      congr 1
      apply List.map_congr_left
      intro i _
      simp only [Function.comp_apply, List.getD_cons_succ, Nat.succ_eq_add_one]
      have harith : st.nextObjectID + 1 + i = st.nextObjectID + (i + 1) := by omega
      rw [harith]
    · rw [List.append_assoc]
      congr 1
      simp only [List.length_cons]
      rw [List.range_succ_eq_map, List.map_cons, List.map_map]
      simp only [Nat.add_zero, List.singleton_append]
      congr 1
      apply List.map_congr_left
      intro i _
      simp only [Function.comp_apply, Nat.succ_eq_add_one]
      have harith : st.nextObjectID + 1 + i = st.nextObjectID + (i + 1) := by omega
      rw [harith]

/-! ### `missRow` lemmas -/

lemma missRow_nextId (st : TrackerState) (oid : Nat) :
    (missRow st oid).nextObjectID = st.nextObjectID := by
  simp only [missRow]
  split <;> rfl

lemma missRow_max (st : TrackerState) (oid : Nat) :
    (missRow st oid).maxDisappeared = st.maxDisappeared := by
  simp only [missRow]
  split <;> rfl

lemma missRow_tracked_ne (st : TrackerState) {oid id : Nat} (h : id ≠ oid) :
    lookupId (missRow st oid).objectsTracked id = lookupId st.objectsTracked id := by
  simp only [missRow]
  split
  · exact lookupId_odDel_ne _ h
  · rfl

lemma missRow_disap_ne (st : TrackerState) {oid id : Nat} (h : id ≠ oid) :
    lookupId (missRow st oid).disappeared id = lookupId st.disappeared id := by
  simp only [missRow]
  split
  · simp only [deregister]
    rw [lookupId_odDel_ne _ h, lookupId_odSet_ne _ h]
  · exact lookupId_odSet_ne _ h _

lemma missRow_self_over (st : TrackerState) (oid : Nat)
    (h : odGet st.disappeared oid + 1 > st.maxDisappeared) :
    lookupId (missRow st oid).objectsTracked oid = none ∧
    lookupId (missRow st oid).disappeared oid = none := by
  simp only [missRow]
  rw [if_pos h]
  exact ⟨lookupId_odDel_self _ _, lookupId_odDel_self _ _⟩

lemma missRow_self_le (st : TrackerState) (oid : Nat)
    (h : ¬ odGet st.disappeared oid + 1 > st.maxDisappeared) :
    lookupId (missRow st oid).objectsTracked oid = lookupId st.objectsTracked oid ∧
    lookupId (missRow st oid).disappeared oid = some (odGet st.disappeared oid + 1) := by
  simp only [missRow]
  rw [if_neg h]
  exact ⟨rfl, lookupId_odSet_self _ _ _⟩

lemma foldl_missRow_nextId :
    ∀ (l : List Nat) (st : TrackerState),
      (l.foldl missRow st).nextObjectID = st.nextObjectID := by
  intro l
  induction l with
  | nil => intro st; rfl
  | cons oid rest ih =>
    intro st
    rw [List.foldl_cons, ih, missRow_nextId]

lemma foldl_missRow_max :
    ∀ (l : List Nat) (st : TrackerState),
      (l.foldl missRow st).maxDisappeared = st.maxDisappeared := by
  intro l
  induction l with
  | nil => intro st; rfl
  | cons oid rest ih =>
    intro st
    rw [List.foldl_cons, ih, missRow_max]

lemma foldl_missRow_ne :
    ∀ (l : List Nat) (st : TrackerState) (id : Nat), id ∉ l →
      lookupId ((l.foldl missRow st).objectsTracked) id = lookupId st.objectsTracked id ∧
      lookupId ((l.foldl missRow st).disappeared) id = lookupId st.disappeared id := by
  intro l
  induction l with
  | nil => intro st id _; exact ⟨rfl, rfl⟩
  | cons oid rest ih =>
    intro st id h
    rw [List.mem_cons, not_or] at h
    rw [List.foldl_cons]
    obtain ⟨ht, hd⟩ := ih (missRow st oid) id h.2
    exact ⟨ht.trans (missRow_tracked_ne st h.1), hd.trans (missRow_disap_ne st h.1)⟩

lemma foldl_missRow_mem :
    ∀ (l : List Nat) (st : TrackerState) (id : Nat), l.Nodup → id ∈ l →
      (odGet st.disappeared id + 1 > st.maxDisappeared →
        lookupId ((l.foldl missRow st).objectsTracked) id = none ∧
        lookupId ((l.foldl missRow st).disappeared) id = none) ∧
      (¬ odGet st.disappeared id + 1 > st.maxDisappeared →
        lookupId ((l.foldl missRow st).objectsTracked) id =
          lookupId st.objectsTracked id ∧
        lookupId ((l.foldl missRow st).disappeared) id =
          some (odGet st.disappeared id + 1)) := by
  intro l
  induction l with
  | nil => intro st id _ hmem; simp at hmem
  | cons oid rest ih =>
    intro st id hnd hmem
    obtain ⟨hnin, hnd'⟩ := List.nodup_cons.mp hnd
    rw [List.foldl_cons]
    rcases List.mem_cons.mp hmem with rfl | hm
    · obtain ⟨ht, hd⟩ := foldl_missRow_ne rest (missRow st id) id hnin
      constructor
      · intro hover
        obtain ⟨ht', hd'⟩ := missRow_self_over st id hover
        exact ⟨ht.trans ht', hd.trans hd'⟩
      · intro hle
        obtain ⟨ht', hd'⟩ := missRow_self_le st id hle
        exact ⟨ht.trans ht', hd.trans hd'⟩
    · have hne : id ≠ oid := fun he => hnin (he ▸ hm)
      have hget : odGet (missRow st oid).disappeared id = odGet st.disappeared id := by
        rw [odGet_eq_lookupId, odGet_eq_lookupId, missRow_disap_ne st hne]
      have hmx := missRow_max st oid
      obtain ⟨hover, hle⟩ := ih (missRow st oid) id hnd' hm
      rw [hget, hmx] at hover hle
      refine ⟨hover, fun hc => ?_⟩
      obtain ⟨ht, hd⟩ := hle hc
      exact ⟨ht.trans (missRow_tracked_ne st hne), hd⟩

/-! ### `emptyLoop` lemmas -/

lemma emptyLoop_nextId :
    ∀ (ks : List Nat) (st : TrackerState),
      (emptyLoop st ks).1.nextObjectID = st.nextObjectID := by
  intro ks
  induction ks with
  | nil => intro st; rfl
  | cons k ks ih =>
    intro st
    simp only [emptyLoop]
    split
    · split <;> rfl
    · exact ih _

lemma emptyLoop_max :
    ∀ (ks : List Nat) (st : TrackerState),
      (emptyLoop st ks).1.maxDisappeared = st.maxDisappeared := by
  intro ks
  induction ks with
  | nil => intro st; rfl
  | cons k ks ih =>
    intro st
    simp only [emptyLoop]
    split
    · split <;> rfl
    · exact ih _

lemma emptyLoop_tracked_keys :
    ∀ (ks : List Nat) (st : TrackerState) (id : Nat),
      id ∈ odKeys (emptyLoop st ks).1.objectsTracked →
      id ∈ odKeys st.objectsTracked := by
  intro ks
  induction ks with
  | nil => intro st id h; exact h
  | cons k ks ih =>
    intro st id h
    simp only [emptyLoop] at h
    revert h
    split
    · split <;>
        · intro h
          rw [deregister] at h
          simp only [odKeys_odDel] at h
          exact (List.mem_filter.mp h).1
    · intro h
      have hh := ih _ id h
      exact hh

lemma emptyLoop_lookup_ne :
    ∀ (ks : List Nat) (st : TrackerState) (id : Nat), id ∉ ks →
      lookupId (emptyLoop st ks).1.objectsTracked id =
        lookupId st.objectsTracked id ∧
      lookupId (emptyLoop st ks).1.disappeared id =
        lookupId st.disappeared id := by
  intro ks
  induction ks with
  | nil => intro st id _; exact ⟨rfl, rfl⟩
  | cons k ks ih =>
    intro st id h
    rw [List.mem_cons, not_or] at h
    simp only [emptyLoop]
    split
    · split <;>
        · rw [deregister]
          exact ⟨lookupId_odDel_ne _ h.1,
            (lookupId_odDel_ne _ h.1).trans (lookupId_odSet_ne _ h.1 _)⟩
    · obtain ⟨ht, hd⟩ := ih _ id h.2
      exact ⟨ht, hd.trans (lookupId_odSet_ne _ h.1 _)⟩

lemma emptyLoop_ok_mem :
    ∀ (ks : List Nat) (st : TrackerState) (id : Nat), ks.Nodup →
      (emptyLoop st ks).2 = none → id ∈ ks →
      (lookupId (emptyLoop st ks).1.disappeared id =
          some (odGet st.disappeared id + 1) ∧
       lookupId (emptyLoop st ks).1.objectsTracked id =
          lookupId st.objectsTracked id) ∨
      (odGet st.disappeared id + 1 > st.maxDisappeared ∧
       lookupId (emptyLoop st ks).1.disappeared id = none ∧
       lookupId (emptyLoop st ks).1.objectsTracked id = none) := by
  intro ks
  induction ks with
  | nil => intro st id _ _ hmem; simp at hmem
  | cons k ks ih =>
    intro st id hnd hok hmem
    obtain ⟨hnin, hnd'⟩ := List.nodup_cons.mp hnd
    by_cases hd : odGet st.disappeared k + 1 > st.maxDisappeared
    · cases ks with
      | nil =>
        have hid : id = k := by simpa using hmem
        subst hid
        right
        simp only [emptyLoop, if_pos hd, deregister]
        exact ⟨hd, lookupId_odDel_self _ _, lookupId_odDel_self _ _⟩
      | cons k2 ks2 =>
        exfalso
        simp only [emptyLoop, if_pos hd] at hok
        exact Option.noConfusion hok
    · have hstep : emptyLoop st (k :: ks) = emptyLoop { st with disappeared := odSet st.disappeared k (odGet st.disappeared k + 1) } ks := by
        simp only [emptyLoop, if_neg hd]
      rw [hstep] at hok ⊢
      rcases List.mem_cons.mp hmem with rfl | hm
      · left
        obtain ⟨ht, hdp⟩ := emptyLoop_lookup_ne ks _ id hnin
        exact ⟨hdp.trans (lookupId_odSet_self _ _ _), ht⟩
      · have hne : id ≠ k := fun he => hnin (he ▸ hm)
        have hget : odGet (odSet st.disappeared k (odGet st.disappeared k + 1)) id =
            odGet st.disappeared id := by
          rw [odGet_eq_lookupId, lookupId_odSet_ne _ hne]
          exact (odGet_eq_lookupId _ _).symm
        have hres := ih _ id hnd' hok hm
        rw [hget] at hres
        rcases hres with ⟨h1, h2⟩ | ⟨h1, h2, h3⟩
        · exact Or.inl ⟨h1, h2⟩
        · exact Or.inr ⟨h1, h2, h3⟩

/-! ### The matching pass -/

lemma trackedIds_eq_odKeys (st : TrackerState) :
    trackedIds st = odKeys st.objectsTracked := rfl

lemma trackedIds_length (st : TrackerState) :
    (trackedIds st).length = st.objectsTracked.length := by
  simp [trackedIds]

lemma rowsOf_perm (st : TrackerState) (cents : List Point) :
    List.Perm (rowsOf st cents) (List.range st.objectsTracked.length) :=
  argsortBy_perm _ _

lemma rowsOf_nodup (st : TrackerState) (cents : List Point) :
    (rowsOf st cents).Nodup :=
  (rowsOf_perm st cents).nodup_iff.mpr (List.nodup_range _)

lemma rowsOf_mem_iff (st : TrackerState) (cents : List Point) (r : Nat) :
    r ∈ rowsOf st cents ↔ r < st.objectsTracked.length := by
  rw [(rowsOf_perm st cents).mem_iff, List.mem_range]

lemma dRowOf_length (st : TrackerState) (cents : List Point) (r : Nat) :
    (dRowOf st cents r).length = cents.length := by
  simp [dRowOf, distRow]

lemma colsOf_mem_lt (st : TrackerState) (cents : List Point) (hc : cents ≠ [])
    (c : Nat) (h : c ∈ colsOf st cents) : c < cents.length := by
  rw [colsOf] at h
  obtain ⟨r, _, rfl⟩ := List.mem_map.mp h
  have hlen : (dRowOf st cents r) ≠ [] := by
    intro hnil
    have := dRowOf_length st cents r
    rw [hnil] at this
    simp only [List.length_nil] at this
    exact hc (List.length_eq_zero.mp this.symm)
  have := argminList_lt_length _ hlen
  rwa [dRowOf_length] at this

lemma pairsOf_mem (st : TrackerState) (cents : List Point) {rc : Nat × Nat}
    (h : rc ∈ pairsOf st cents) : rc.1 ∈ rowsOf st cents ∧ rc.2 ∈ colsOf st cents := by
  rw [pairsOf] at h
  cases rc with
  | mk r c => exact List.of_mem_zip h

lemma acceptedOf_sub (st : TrackerState) (cents : List Point) {rc : Nat × Nat}
    (h : rc ∈ acceptedOf st cents) : rc ∈ pairsOf st cents :=
  (acceptedPairs_sublist _ [] []).subset h

lemma acceptedOf_fst_lt (st : TrackerState) (cents : List Point) {rc : Nat × Nat}
    (h : rc ∈ acceptedOf st cents) : rc.1 < st.objectsTracked.length :=
  (rowsOf_mem_iff st cents rc.1).mp (pairsOf_mem st cents (acceptedOf_sub st cents h)).1

lemma acceptedOf_snd_lt (st : TrackerState) (cents : List Point) (hc : cents ≠ [])
    {rc : Nat × Nat} (h : rc ∈ acceptedOf st cents) : rc.2 < cents.length :=
  colsOf_mem_lt st cents hc rc.2 (pairsOf_mem st cents (acceptedOf_sub st cents h)).2

lemma matchAccOf_eq (st : TrackerState) (cents : List Point) :
    matchAccOf st cents =
      ⟨((acceptedOf st cents).map Prod.fst).reverse,
       ((acceptedOf st cents).map Prod.snd).reverse,
       (trackedWrites st cents).foldl (fun t kv => odSet t kv.1 kv.2)
         st.objectsTracked,
       (disapWrites st cents).foldl (fun d kv => odSet d kv.1 kv.2)
         st.disappeared⟩ := by
  unfold matchAccOf trackedWrites disapWrites acceptedOf
  rw [foldl_matchStep_eq]
  rw [List.foldl_map, List.foldl_map]
  simp [pairsOf]

lemma trackedWrites_keys (st : TrackerState) (cents : List Point) :
    odKeys (trackedWrites st cents) =
      (acceptedOf st cents).map (fun rc => (trackedIds st).getD rc.1 0) := by
  simp [odKeys, trackedWrites, List.map_map]

lemma disapWrites_keys (st : TrackerState) (cents : List Point) :
    odKeys (disapWrites st cents) =
      (acceptedOf st cents).map (fun rc => (trackedIds st).getD rc.1 0) := by
  simp [odKeys, disapWrites, List.map_map]

lemma trackedWrites_keys_mem (st : TrackerState) (cents : List Point) (k : Nat)
    (h : k ∈ odKeys (trackedWrites st cents)) : k ∈ odKeys st.objectsTracked := by
  rw [trackedWrites_keys] at h
  obtain ⟨rc, hrc, rfl⟩ := List.mem_map.mp h
  have hlt := acceptedOf_fst_lt st cents hrc
  rw [← trackedIds_length] at hlt
  exact getD_mem _ _ _ hlt

lemma trackedWrites_keys_nodup (st : TrackerState) (cents : List Point)
    (hnd : (trackedIds st).Nodup) : (odKeys (trackedWrites st cents)).Nodup := by
  rw [trackedWrites_keys]
  have hcomp : (acceptedOf st cents).map (fun rc => (trackedIds st).getD rc.1 0) =
      ((acceptedOf st cents).map Prod.fst).map (fun r => (trackedIds st).getD r 0) := by
    rw [List.map_map]
    rfl
  rw [hcomp]
  apply List.Nodup.map_on ?_ (acceptedPairs_fst_nodup _ _ _)
  intro r hr r' hr' he
  obtain ⟨rc, hrc, rfl⟩ := List.mem_map.mp hr
  obtain ⟨rc', hrc', rfl⟩ := List.mem_map.mp hr'
  have h1 := acceptedOf_fst_lt st cents hrc
  have h2 := acceptedOf_fst_lt st cents hrc'
  rw [← trackedIds_length] at h1 h2
  exact nodup_getD_inj _ hnd h1 h2 he

lemma matchAcc_tracked_keys (st : TrackerState) (cents : List Point) :
    odKeys (matchAccOf st cents).objectsTracked = odKeys st.objectsTracked := by
  rw [matchAccOf_eq]
  exact odKeys_foldl_writes _ _ (trackedWrites_keys_mem st cents)

lemma matchAcc_disap_keys (st : TrackerState) (cents : List Point)
    (hkeq : odKeys st.objectsTracked = odKeys st.disappeared) :
    odKeys (matchAccOf st cents).disappeared = odKeys st.disappeared := by
  rw [matchAccOf_eq]
  apply odKeys_foldl_writes
  intro k hk
  rw [← hkeq]
  apply trackedWrites_keys_mem st cents
  rw [trackedWrites_keys]
  rw [disapWrites_keys] at hk
  exact hk

lemma matchAcc_tracked_of_accepted (st : TrackerState) (cents : List Point)
    {rc : Nat × Nat} (hnd : (trackedIds st).Nodup) (hrc : rc ∈ acceptedOf st cents) :
    lookupId (matchAccOf st cents).objectsTracked ((trackedIds st).getD rc.1 0) =
      some (cents.getD rc.2 (0, 0)) := by
  rw [matchAccOf_eq]
  apply lookupId_foldl_writes_mem
  · rw [trackedWrites]
    exact List.mem_map.mpr ⟨rc, hrc, rfl⟩
  · exact trackedWrites_keys_nodup st cents hnd

lemma matchAcc_disap_of_accepted (st : TrackerState) (cents : List Point)
    {rc : Nat × Nat} (hnd : (trackedIds st).Nodup) (hrc : rc ∈ acceptedOf st cents) :
    lookupId (matchAccOf st cents).disappeared ((trackedIds st).getD rc.1 0) =
      some 0 := by
  rw [matchAccOf_eq]
  apply lookupId_foldl_writes_mem
  · rw [disapWrites]
    exact List.mem_map.mpr ⟨rc, hrc, rfl⟩
  · rw [disapWrites_keys, ← trackedWrites_keys]
    exact trackedWrites_keys_nodup st cents hnd

lemma matchAcc_lookup_notwritten (st : TrackerState) (cents : List Point) (id : Nat)
    (h : id ∉ odKeys (trackedWrites st cents)) :
    lookupId (matchAccOf st cents).objectsTracked id =
      lookupId st.objectsTracked id ∧
    lookupId (matchAccOf st cents).disappeared id = lookupId st.disappeared id := by
  rw [matchAccOf_eq]
  constructor
  · exact lookupId_foldl_writes_notmem _ _ id h
  · apply lookupId_foldl_writes_notmem
    rw [disapWrites_keys, ← trackedWrites_keys]
    exact h

lemma unaccepted_id_notmem_writes (st : TrackerState) (cents : List Point)
    (hnd : (trackedIds st).Nodup) (r : Nat) (hr : r < st.objectsTracked.length)
    (hna : r ∉ (acceptedOf st cents).map Prod.fst) :
    (trackedIds st).getD r 0 ∉ odKeys (trackedWrites st cents) := by
  rw [trackedWrites_keys]
  intro hmem
  obtain ⟨rc, hrc, he⟩ := List.mem_map.mp hmem
  have h1 := acceptedOf_fst_lt st cents hrc
  rw [← trackedIds_length] at h1
  rw [← trackedIds_length] at hr
  have := nodup_getD_inj _ hnd h1 hr he
  exact hna (this ▸ List.mem_map.mpr ⟨rc, hrc, rfl⟩)

lemma matchAcc_usedRows_mem (st : TrackerState) (cents : List Point) (r : Nat) :
    r ∈ (matchAccOf st cents).usedRows ↔
      r ∈ (acceptedOf st cents).map Prod.fst := by
  rw [matchAccOf_eq]
  exact List.mem_reverse

lemma matchAcc_usedCols_mem (st : TrackerState) (cents : List Point) (c : Nat) :
    c ∈ (matchAccOf st cents).usedCols ↔
      c ∈ (acceptedOf st cents).map Prod.snd := by
  rw [matchAccOf_eq]
  exact List.mem_reverse

lemma getD_index_of_mem : ∀ (l : List Nat) (id : Nat), id ∈ l →
    ∃ r, r < l.length ∧ l.getD r 0 = id := by
  intro l
  induction l with
  | nil => intro id h; simp at h
  | cons x xs ih =>
    intro id h
    rcases List.mem_cons.mp h with rfl | hm
    · exact ⟨0, by simp, rfl⟩
    · obtain ⟨r, hr, he⟩ := ih id hm
      exact ⟨r + 1, by simpa using Nat.succ_lt_succ hr, he⟩

lemma lookupId_append (l1 l2 : List (Nat × α)) (k : Nat) :
    lookupId (l1 ++ l2) k =
      if k ∈ odKeys l1 then lookupId l1 k else lookupId l2 k := by
  induction l1 with
  | nil => simp [odKeys]
  | cons p l ih =>
    rw [List.cons_append, lookupId_cons, lookupId_cons, odKeys_cons]
    by_cases hp : p.1 = k
    · rw [if_pos hp, if_pos (by rw [← hp]; exact List.mem_cons_self _ _), if_pos hp]
    · have h' : ¬ k = p.1 := fun he => hp he.symm
      rw [if_neg hp, if_neg hp, ih]
      by_cases hm : k ∈ odKeys l
      · rw [if_pos hm, if_pos (List.mem_cons_of_mem _ hm)]
      · rw [if_neg hm, if_neg (by simp [h', hm])]

/-! ### `update` branch equations -/

lemma update_empty_eq (st : TrackerState) :
    update st [] = emptyLoop st (odKeys st.disappeared) := rfl

lemma update_register_all (st : TrackerState) (rect : List Box)
    (hrect : rect ≠ []) (hobj : st.objectsTracked = []) :
    update st rect = ((rect.map centroidOf).foldl register st, none) := by
  cases rect with
  | nil => exact absurd rfl hrect
  | cons b bs =>
    simp only [update]
    rw [if_pos]
    rw [hobj]
    rfl

lemma update_ge_eq (st : TrackerState) (rect : List Box)
    (hrect : rect ≠ []) (hobj : st.objectsTracked ≠ [])
    (hge : rect.length ≤ st.objectsTracked.length) :
    update st rect =
      (((List.range st.objectsTracked.length).filter
          (fun r => r ∉ (matchAccOf st (rect.map centroidOf)).usedRows)).foldl
        (fun s r => missRow s ((trackedIds st).getD r 0))
        { st with
          objectsTracked := (matchAccOf st (rect.map centroidOf)).objectsTracked,
          disappeared := (matchAccOf st (rect.map centroidOf)).disappeared },
       none) := by
  cases rect with
  | nil => exact absurd rfl hrect
  | cons b bs =>
    simp only [update]
    have hlen0 : ¬ (st.objectsTracked.length == 0) = true := by
      simp [List.length_eq_zero, hobj]
    rw [if_neg hlen0]
    have hpos : st.objectsTracked.length * ((b :: bs).map centroidOf).length > 0 := by
      have h1 : 0 < st.objectsTracked.length := List.length_pos.mpr hobj
      have h2 : 0 < ((b :: bs).map centroidOf).length := by simp
      exact Nat.mul_pos h1 h2
    rw [if_pos hpos]
    have hge' : st.objectsTracked.length ≥ ((b :: bs).map centroidOf).length := by
      rw [List.length_map]
      exact hge
    rw [if_pos hge']

lemma update_lt_eq (st : TrackerState) (rect : List Box)
    (hrect : rect ≠ []) (hobj : st.objectsTracked ≠ [])
    (hlt : st.objectsTracked.length < rect.length) :
    update st rect =
      (((List.range (rect.map centroidOf).length).filter
          (fun c => c ∉ (matchAccOf st (rect.map centroidOf)).usedCols)).foldl
        (fun s c => register s ((rect.map centroidOf).getD c (0, 0)))
        { st with
          objectsTracked := (matchAccOf st (rect.map centroidOf)).objectsTracked,
          disappeared := (matchAccOf st (rect.map centroidOf)).disappeared },
       none) := by
  cases rect with
  | nil => exact absurd rfl hrect
  | cons b bs =>
    simp only [update]
    have hlen0 : ¬ (st.objectsTracked.length == 0) = true := by
      simp [List.length_eq_zero, hobj]
    rw [if_neg hlen0]
    have hpos : st.objectsTracked.length * ((b :: bs).map centroidOf).length > 0 := by
      have h1 : 0 < st.objectsTracked.length := List.length_pos.mpr hobj
      have h2 : 0 < ((b :: bs).map centroidOf).length := by simp
      exact Nat.mul_pos h1 h2
    rw [if_pos hpos]
    have hlt' : ¬ st.objectsTracked.length ≥ ((b :: bs).map centroidOf).length := by
      rw [List.length_map]
      omega
    rw [if_neg hlt']

/-! ### Per-object outcome of the `rows ≥ cols` branch -/

lemma update_ge_final (st : TrackerState) (rect : List Box)
    (hrect : rect ≠ []) (hobj : st.objectsTracked ≠ [])
    (hge : rect.length ≤ st.objectsTracked.length) :
    (update st rect).1 =
      ((((List.range st.objectsTracked.length).filter
          (fun r => r ∉ (matchAccOf st (rect.map centroidOf)).usedRows)).map
            (fun r => (trackedIds st).getD r 0)).foldl missRow
        { st with
          objectsTracked := (matchAccOf st (rect.map centroidOf)).objectsTracked,
          disappeared := (matchAccOf st (rect.map centroidOf)).disappeared }) ∧
    (update st rect).2 = none := by
  rw [update_ge_eq st rect hrect hobj hge]
  rw [List.foldl_map]
  exact ⟨rfl, rfl⟩

/-- The list of row indices left unused by the matching pass. -/
lemma unusedRows_mem_iff (st : TrackerState) (cents : List Point) (r : Nat) :
    r ∈ (List.range st.objectsTracked.length).filter
        (fun r => r ∉ (matchAccOf st cents).usedRows) ↔
      r < st.objectsTracked.length ∧ r ∉ (acceptedOf st cents).map Prod.fst := by
  rw [List.mem_filter, List.mem_range]
  constructor
  · rintro ⟨h1, h2⟩
    refine ⟨h1, fun hm => ?_⟩
    have := (matchAcc_usedRows_mem st cents r).mpr hm
    simp [this] at h2
  · rintro ⟨h1, h2⟩
    refine ⟨h1, ?_⟩
    simp only [decide_eq_true_eq]
    intro hm
    exact h2 ((matchAcc_usedRows_mem st cents r).mp hm)

lemma unusedIds_nodup (st : TrackerState) (cents : List Point)
    (hnd : (trackedIds st).Nodup) :
    (((List.range st.objectsTracked.length).filter
        (fun r => r ∉ (matchAccOf st cents).usedRows)).map
          (fun r => (trackedIds st).getD r 0)).Nodup := by
  apply List.Nodup.map_on
  · intro r hr r' hr' he
    have h1 := ((unusedRows_mem_iff st cents r).mp hr).1
    have h2 := ((unusedRows_mem_iff st cents r').mp hr').1
    rw [← trackedIds_length] at h1 h2
    exact nodup_getD_inj _ hnd h1 h2 he
  · exact (List.nodup_range _).filter _

lemma unusedIds_mem (st : TrackerState) (cents : List Point)
    (hnd : (trackedIds st).Nodup) (r : Nat) (hr : r < st.objectsTracked.length) :
    (trackedIds st).getD r 0 ∈
        ((List.range st.objectsTracked.length).filter
          (fun r => r ∉ (matchAccOf st cents).usedRows)).map
            (fun r => (trackedIds st).getD r 0) ↔
      r ∉ (acceptedOf st cents).map Prod.fst := by
  constructor
  · intro hm
    obtain ⟨r', hr', he⟩ := List.mem_map.mp hm
    obtain ⟨h1, h2⟩ := (unusedRows_mem_iff st cents r').mp hr'
    rw [← trackedIds_length] at h1
    have := nodup_getD_inj _ hnd h1 (by rwa [← trackedIds_length] at hr) he
    exact this ▸ h2
  · intro hna
    exact List.mem_map.mpr ⟨r, (unusedRows_mem_iff st cents r).mpr ⟨hr, hna⟩, rfl⟩

lemma update_ge_id_outcome (st : TrackerState) (rect : List Box)
    (hwf : WF st) (hrect : rect ≠ [])
    (hge : rect.length ≤ st.objectsTracked.length)
    (id : Nat) (hid : id ∈ odKeys st.objectsTracked) :
    (∃ rc ∈ acceptedOf st (rect.map centroidOf),
      (trackedIds st).getD rc.1 0 = id ∧
      lookupId (update st rect).1.objectsTracked id =
        some ((rect.map centroidOf).getD rc.2 (0, 0)) ∧
      lookupId (update st rect).1.disappeared id = some 0) ∨
    ((∀ rc ∈ acceptedOf st (rect.map centroidOf),
        (trackedIds st).getD rc.1 0 ≠ id) ∧
     (odGet st.disappeared id + 1 > st.maxDisappeared →
        lookupId (update st rect).1.objectsTracked id = none ∧
        lookupId (update st rect).1.disappeared id = none) ∧
     (¬ odGet st.disappeared id + 1 > st.maxDisappeared →
        lookupId (update st rect).1.objectsTracked id =
          lookupId st.objectsTracked id ∧
        lookupId (update st rect).1.disappeared id =
          some (odGet st.disappeared id + 1))) := by
  obtain ⟨hkeq, hnd, hbound⟩ := hwf
  have hnd' : (trackedIds st).Nodup := hnd
  have hobj : st.objectsTracked ≠ [] := by
    intro he
    rw [he] at hid
    simp [odKeys] at hid
  obtain ⟨r, hrlen, hgetD⟩ := getD_index_of_mem (trackedIds st) id hid
  rw [trackedIds_length] at hrlen
  have hfinal := (update_ge_final st rect hrect hobj hge).1
  by_cases hacc : r ∈ (acceptedOf st (rect.map centroidOf)).map Prod.fst
  · obtain ⟨rc, hrc, hrc1⟩ := List.mem_map.mp hacc
    left
    have hnotin : id ∉
        ((List.range st.objectsTracked.length).filter
          (fun r => r ∉ (matchAccOf st (rect.map centroidOf)).usedRows)).map
            (fun r => (trackedIds st).getD r 0) := by
      rw [← hgetD]
      rw [unusedIds_mem st _ hnd' r hrlen]
      intro hna
      exact hna hacc
    obtain ⟨ht, hd⟩ := foldl_missRow_ne _ _ id hnotin
    rw [hfinal] at *
    refine ⟨rc, hrc, by rw [hrc1]; exact hgetD, ?_, ?_⟩
    · rw [ht]
      have := matchAcc_tracked_of_accepted st (rect.map centroidOf) hnd' hrc
      rw [hrc1, hgetD] at this
      exact this
    · rw [hd]
      have := matchAcc_disap_of_accepted st (rect.map centroidOf) hnd' hrc
      rw [hrc1, hgetD] at this
      exact this
  · right
    have hne : ∀ rc ∈ acceptedOf st (rect.map centroidOf),
        (trackedIds st).getD rc.1 0 ≠ id := by
      intro rc hrc he
      have h1 := acceptedOf_fst_lt st _ hrc
      rw [← trackedIds_length] at h1
      have := nodup_getD_inj _ hnd' h1 (by rwa [← trackedIds_length] at hrlen)
        (he.trans hgetD.symm)
      exact hacc (this ▸ List.mem_map.mpr ⟨rc, hrc, rfl⟩)
    have hnw : id ∉ odKeys (trackedWrites st (rect.map centroidOf)) := by
      rw [← hgetD]
      exact unaccepted_id_notmem_writes st _ hnd' r hrlen hacc
    obtain ⟨ht1, hd1⟩ := matchAcc_lookup_notwritten st (rect.map centroidOf) id hnw
    have hmem : id ∈
        ((List.range st.objectsTracked.length).filter
          (fun r => r ∉ (matchAccOf st (rect.map centroidOf)).usedRows)).map
            (fun r => (trackedIds st).getD r 0) := by
      rw [← hgetD, unusedIds_mem st _ hnd' r hrlen]
      exact hacc
    have hfold := foldl_missRow_mem _
      ({ st with
          objectsTracked := (matchAccOf st (rect.map centroidOf)).objectsTracked,
          disappeared := (matchAccOf st (rect.map centroidOf)).disappeared })
      id (unusedIds_nodup st _ hnd') hmem
    have hget1 : odGet
        ({ st with
            objectsTracked := (matchAccOf st (rect.map centroidOf)).objectsTracked,
            disappeared := (matchAccOf st (rect.map centroidOf)).disappeared }
          : TrackerState).disappeared id = odGet st.disappeared id := by
      rw [odGet_eq_lookupId, odGet_eq_lookupId]
      exact congrArg (fun o => Option.getD o default) hd1
    rw [hget1] at hfold
    obtain ⟨hover, hle⟩ := hfold
    rw [hfinal]
    refine ⟨hne, fun hc => hover hc, fun hc => ?_⟩
    obtain ⟨ha, hb⟩ := hle hc
    exact ⟨ha.trans ht1, hb⟩

/-! ### Per-object outcome of the `rows < cols` branch -/

lemma foldl_register_lookup_low :
    ∀ (cs : List Point) (st : TrackerState) (id : Nat), id < st.nextObjectID →
      lookupId (cs.foldl register st).objectsTracked id =
        lookupId st.objectsTracked id ∧
      lookupId (cs.foldl register st).disappeared id =
        lookupId st.disappeared id := by
  intro cs
  induction cs with
  | nil => intro st id _; exact ⟨rfl, rfl⟩
  | cons c cs ih =>
    intro st id hlow
    rw [List.foldl_cons]
    have hne : id ≠ st.nextObjectID := fun he => absurd (he ▸ hlow) (lt_irrefl _)
    obtain ⟨ht, hd⟩ := ih (register st c) id (by rw [register_nextId]; omega)
    constructor
    · rw [ht]
      exact lookupId_odSet_ne _ hne _
    · rw [hd]
      exact lookupId_odSet_ne _ hne _

lemma register_keys_mono (st : TrackerState) (c : Point) (id : Nat)
    (h : id ∈ odKeys st.objectsTracked) :
    id ∈ odKeys (register st c).objectsTracked := by
  unfold register
  by_cases hm : st.nextObjectID ∈ odKeys st.objectsTracked
  · rw [odKeys_odSet_of_mem hm]
    exact h
  · rw [odKeys_odSet_of_notmem hm]
    exact List.mem_append.mpr (Or.inl h)

lemma foldl_register_keys_mono :
    ∀ (cs : List Point) (st : TrackerState) (id : Nat),
      id ∈ odKeys st.objectsTracked →
      id ∈ odKeys (cs.foldl register st).objectsTracked := by
  intro cs
  induction cs with
  | nil => intro st id h; exact h
  | cons c cs ih =>
    intro st id h
    rw [List.foldl_cons]
    exact ih _ id (register_keys_mono st c id h)

lemma update_lt_final (st : TrackerState) (rect : List Box)
    (hrect : rect ≠ []) (hobj : st.objectsTracked ≠ [])
    (hlt : st.objectsTracked.length < rect.length) :
    (update st rect).1 =
      ((((List.range (rect.map centroidOf).length).filter
          (fun c => c ∉ (matchAccOf st (rect.map centroidOf)).usedCols)).map
            (fun c => (rect.map centroidOf).getD c (0, 0))).foldl register
        { st with
          objectsTracked := (matchAccOf st (rect.map centroidOf)).objectsTracked,
          disappeared := (matchAccOf st (rect.map centroidOf)).disappeared }) ∧
    (update st rect).2 = none := by
  rw [update_lt_eq st rect hrect hobj hlt]
  rw [List.foldl_map]
  exact ⟨rfl, rfl⟩

lemma update_lt_id_outcome (st : TrackerState) (rect : List Box)
    (hwf : WF st) (hrect : rect ≠ [])
    (hlt : st.objectsTracked.length < rect.length)
    (id : Nat) (hid : id ∈ odKeys st.objectsTracked) :
    (update st rect).2 = none ∧
    id ∈ odKeys (update st rect).1.objectsTracked ∧
    ((∃ rc ∈ acceptedOf st (rect.map centroidOf),
        (trackedIds st).getD rc.1 0 = id ∧
        lookupId (update st rect).1.objectsTracked id =
          some ((rect.map centroidOf).getD rc.2 (0, 0)) ∧
        lookupId (update st rect).1.disappeared id = some 0) ∨
     ((∀ rc ∈ acceptedOf st (rect.map centroidOf),
          (trackedIds st).getD rc.1 0 ≠ id) ∧
      lookupId (update st rect).1.objectsTracked id =
        lookupId st.objectsTracked id ∧
      lookupId (update st rect).1.disappeared id =
        lookupId st.disappeared id)) := by
  obtain ⟨hkeq, hnd, hbound⟩ := hwf
  have hnd' : (trackedIds st).Nodup := hnd
  have hobj : st.objectsTracked ≠ [] := by
    intro he
    rw [he] at hid
    simp [odKeys] at hid
  obtain ⟨r, hrlen, hgetD⟩ := getD_index_of_mem (trackedIds st) id hid
  rw [trackedIds_length] at hrlen
  obtain ⟨hfinal, hok⟩ := update_lt_final st rect hrect hobj hlt
  have hlow : id <
      ({ st with
          objectsTracked := (matchAccOf st (rect.map centroidOf)).objectsTracked,
          disappeared := (matchAccOf st (rect.map centroidOf)).disappeared }
        : TrackerState).nextObjectID := hbound id hid
  obtain ⟨ht, hd⟩ := foldl_register_lookup_low _ _ id hlow
  have hmem1 : id ∈ odKeys
      ({ st with
          objectsTracked := (matchAccOf st (rect.map centroidOf)).objectsTracked,
          disappeared := (matchAccOf st (rect.map centroidOf)).disappeared }
        : TrackerState).objectsTracked := by
    have := matchAcc_tracked_keys st (rect.map centroidOf)
    exact this ▸ hid
  refine ⟨hok, ?_, ?_⟩
  · rw [hfinal]
    exact foldl_register_keys_mono _ _ id hmem1
  · rw [hfinal]
    by_cases hacc : r ∈ (acceptedOf st (rect.map centroidOf)).map Prod.fst
    · obtain ⟨rc, hrc, hrc1⟩ := List.mem_map.mp hacc
      left
      refine ⟨rc, hrc, by rw [hrc1]; exact hgetD, ?_, ?_⟩
      · rw [ht]
        have := matchAcc_tracked_of_accepted st (rect.map centroidOf) hnd' hrc
        rw [hrc1, hgetD] at this
        exact this
      · rw [hd]
        have := matchAcc_disap_of_accepted st (rect.map centroidOf) hnd' hrc
        rw [hrc1, hgetD] at this
        exact this
    · right
      have hne : ∀ rc ∈ acceptedOf st (rect.map centroidOf),
          (trackedIds st).getD rc.1 0 ≠ id := by
        intro rc hrc he
        have h1 := acceptedOf_fst_lt st _ hrc
        rw [← trackedIds_length] at h1
        have := nodup_getD_inj _ hnd' h1 (by rwa [← trackedIds_length] at hrlen)
          (he.trans hgetD.symm)
        exact hacc (this ▸ List.mem_map.mpr ⟨rc, hrc, rfl⟩)
      have hnw : id ∉ odKeys (trackedWrites st (rect.map centroidOf)) := by
        rw [← hgetD]
        exact unaccepted_id_notmem_writes st _ hnd' r hrlen hacc
      obtain ⟨ht1, hd1⟩ := matchAcc_lookup_notwritten st (rect.map centroidOf) id hnw
      exact ⟨hne, ht.trans ht1, hd.trans hd1⟩

lemma getD_map_centroid : ∀ (l : List Box) (i : Nat), i < l.length →
    (l.map centroidOf).getD i (0, 0) = centroidOf (l.getD i (0, 0, 0, 0)) := by
  intro l
  induction l with
  | nil => intro i h; simp at h
  | cons b bs ih =>
    intro i h
    cases i with
    | zero => rfl
    | succ n =>
      rw [List.map_cons, List.getD_cons_succ, List.getD_cons_succ]
      exact ih n (by simpa using h)

/-! ### Claim theorems -/

/-- C1: the claim says `update` never raises.  It is refuted by the code: with
`maxDisappeared = 13`, register two objects, miss them for 13 frames (both
counters reach 13), then call `update([])` once more.  The first object's
counter exceeds the limit, it is deregistered, and the next step of the loop
over the live `disappeared` keys raises CPython's
`RuntimeError: OrderedDict mutated during iteration`; the second object's
counter is never incremented, and the call raises instead of returning the
shrunk mapping.  The theorem evaluates the model on this reachable trace. -/
theorem C1_empty_update_raises_on_double_removal :
    update ((fun s => updateSt s [])^[13]
        (updateSt (mkTracker 13) [(0, 0, 2, 0), (4, 0, 6, 0)])) [] =
      (⟨3, [(2, (5, 0))], [(2, 13)], 13⟩,
       some "OrderedDict mutated during iteration") := by decide

/-- C5: with `maxDisappeared = 13`, after registering one object, each of the
first 13 empty `update` calls keeps the object (mapping size stays 1, no
exception), and the 14th empty call removes it (mapping size 0, still no
exception, since deleting the last iterated key ends the iteration
cleanly). -/
theorem C5_thirteen_misses_kept_fourteenth_removes :
    ((List.range 14).all fun k =>
      ((((fun s => updateSt s [])^[k]
          (register (mkTracker 13) (5, 5))).objectsTracked.length == 1) &&
       ((update ((fun s => updateSt s [])^[k]
          (register (mkTracker 13) (5, 5))) []).2).isNone)) = true ∧
    ((fun s => updateSt s [])^[14]
        (register (mkTracker 13) (5, 5))).objectsTracked.length = 0 := by decide

/-- C2 counterexample: two tracked objects at (0,0) and (1,0) (both miss
counters 0), three detections with centroids (0,0), (50,50), (60,60).  Both
objects' nearest detection is column 0; the greedy pass gives it to object 1
and skips object 2, and since detections outnumber objects the unused-row
pass does not run.  Object 2 survives the call with centroid (1,0) — not any
detection's centroid — and counter still 0 — not 0 + 1: it was not mutated at
all, refuting "mutated exactly once". -/
theorem C2_counterexample_skipped_row_untouched :
    (update ⟨3, [(1, (0, 0)), (2, (1, 0))], [(1, 0), (2, 0)], 13⟩
        [(0, 0, 0, 0), (50, 50, 50, 50), (60, 60, 60, 60)]).2 = none ∧
    lookupId (updateSt ⟨3, [(1, (0, 0)), (2, (1, 0))], [(1, 0), (2, 0)], 13⟩
        [(0, 0, 0, 0), (50, 50, 50, 50), (60, 60, 60, 60)]).objectsTracked 2 =
      some (1, 0) ∧
    lookupId (updateSt ⟨3, [(1, (0, 0)), (2, (1, 0))], [(1, 0), (2, 0)], 13⟩
        [(0, 0, 0, 0), (50, 50, 50, 50), (60, 60, 60, 60)]).disappeared 2 =
      some 0 ∧
    [(0, 0, 0, 0), (50, 50, 50, 50), (60, 60, 60, 60)].map centroidOf =
      [(0, 0), (50, 50), (60, 60)] ∧
    ((1 : Int), (0 : Int)) ∉ [((0 : Int), (0 : Int)), (50, 50), (60, 60)] ∧
    (0 : Nat) ≠ 0 + 1 := by decide

/-- C3 counterexample: the same collision scenario — 2 tracked objects, 3
detections, both objects nearest to the same detection — registers TWO new
ids (3 and 4), not exactly one: `nextObjectID` jumps from 3 to 5. -/
theorem C3_counterexample_two_registrations :
    (updateSt ⟨3, [(1, (0, 0)), (2, (1, 0))], [(1, 0), (2, 0)], 13⟩
        [(0, 0, 0, 0), (50, 50, 50, 50), (60, 60, 60, 60)]).nextObjectID = 5 ∧
    odKeys (updateSt ⟨3, [(1, (0, 0)), (2, (1, 0))], [(1, 0), (2, 0)], 13⟩
        [(0, 0, 0, 0), (50, 50, 50, 50), (60, 60, 60, 60)]).objectsTracked =
      [1, 2, 3, 4] ∧
    ¬ (5 : Nat) = 3 + 1 := by decide

/-- C8: no distance threshold gates a match: a tracker holding exactly one
object (any centroid, any miss count — in particular the state reached after
any number of empty updates below the limit) matched against exactly one
detection (any box, arbitrarily far away) always assigns it: the id is kept
(no new id — `nextObjectID` unchanged), the centroid becomes the detection's
centroid and the miss counter resets to 0. -/
theorem C8_no_distance_threshold (nid mx k id : Nat) (c0 : Point) (b : Box) :
    update ⟨nid, [(id, c0)], [(id, k)], mx⟩ [b] =
      (⟨nid, [(id, centroidOf b)], [(id, 0)], mx⟩, none) := by
  have h := update_ge_eq ⟨nid, [(id, c0)], [(id, k)], mx⟩ [b] (by simp)
    (by simp) (by simp)
  rw [h]
  have hacc : matchAccOf ⟨nid, [(id, c0)], [(id, k)], mx⟩ ([b].map centroidOf) =
      ⟨[0], [0], odSet [(id, c0)] id (centroidOf b), odSet [(id, k)] id 0⟩ := by
    rw [matchAccOf_eq]
    rfl
  rw [hacc]
  have h1 : odSet [(id, c0)] id (centroidOf b) = [(id, centroidOf b)] := by
    rw [odSet_of_mem (by simp [odKeys]) (centroidOf b)]
    simp
  have h2 : odSet [(id, k)] id 0 = [(id, 0)] := by
    rw [odSet_of_mem (by simp [odKeys]) 0]
    simp
  rw [h1, h2]
  rfl

/-- C6: calling `update` on a tracker with no tracked objects and N
detections registers exactly N new entries, with distinct consecutive
ascending ids starting at the current `nextObjectID` (1 on a fresh tracker,
second conjunct), in supply order; each entry's centroid is the box midpoint
(`centroidOf`) and each miss counter is 0. -/
theorem C6_empty_tracker_registers_all :
    (∀ (st : TrackerState) (rect : List Box),
      st.objectsTracked = [] → st.disappeared = [] →
      update st rect =
        (⟨st.nextObjectID + rect.length,
          (List.range rect.length).map
            (fun i => (st.nextObjectID + i, centroidOf (rect.getD i (0, 0, 0, 0)))),
          (List.range rect.length).map (fun i => (st.nextObjectID + i, (0 : Nat))),
          st.maxDisappeared⟩, none)) ∧
    ∀ mx : Nat, (mkTracker mx).nextObjectID = 1 := by
  constructor
  · intro st rect h1 h2
    cases rect with
    | nil =>
      cases st with
      | mk n tr di m =>
        have h1' : tr = [] := h1
        have h2' : di = [] := h2
        subst h1'
        subst h2'
        rfl
    | cons b bs =>
      rw [update_register_all st _ (by simp) h1]
      rw [foldl_register_eq _ st (by rw [h1]; simp [odKeys])
        (by rw [h2]; simp [odKeys])]
      rw [h1, h2]
      simp only [List.nil_append, Prod.mk.injEq, TrackerState.mk.injEq,
        List.length_map, eq_self_iff_true, true_and, and_true]
      apply List.map_congr_left
      intro i hi
      rw [List.mem_range] at hi
      exact Prod.ext rfl (getD_map_centroid _ i hi)
  · intro mx
    rfl

/-- C6 witness: the general theorem applied to a concrete empty-tracker state
and two boxes, evaluated. -/
theorem C6_empty_tracker_registers_all_witness :
    update ⟨7, [], [], 13⟩ [(0, 0, 2, 2), (10, 10, 14, 14)] =
      (⟨9, [(7, (1, 1)), (8, (12, 12))], [(7, 0), (8, 0)], 13⟩, none) := by
  have h := (C6_empty_tracker_registers_all).1 ⟨7, [], [], 13⟩
    [(0, 0, 2, 2), (10, 10, 14, 14)] rfl rfl
  rw [h]
  decide

/-- C2 amended: in every `update` call that returns normally, every object
present both before and after the call is either matched (centroid set to
some detection's centroid, miss counter reset to 0), or missed (centroid
untouched, miss counter incremented by 1), or — possible only when the
detections outnumber the tracked objects — left completely untouched (its
arg-min column was consumed by an earlier row, and the unused-row pass does
not run in that regime). -/
theorem C2_amended_per_call_mutation (st : TrackerState) (rect : List Box)
    (hwf : WF st) (hok : (update st rect).2 = none) (id : Nat)
    (hbefore : id ∈ odKeys st.objectsTracked)
    (hafter : id ∈ odKeys (update st rect).1.objectsTracked) :
    (∃ c ∈ rect.map centroidOf,
        lookupId (update st rect).1.objectsTracked id = some c ∧
        lookupId (update st rect).1.disappeared id = some 0) ∨
    (lookupId (update st rect).1.objectsTracked id =
        lookupId st.objectsTracked id ∧
     lookupId (update st rect).1.disappeared id =
        some (odGet st.disappeared id + 1)) ∨
    (st.objectsTracked.length < rect.length ∧
     lookupId (update st rect).1.objectsTracked id =
        lookupId st.objectsTracked id ∧
     lookupId (update st rect).1.disappeared id =
        lookupId st.disappeared id) := by
  obtain ⟨hkeq, hnd, hbound⟩ := hwf
  cases rect with
  | nil =>
    rw [update_empty_eq] at hok hafter ⊢
    have hks : id ∈ odKeys st.disappeared := hkeq ▸ hbefore
    have hksnd : (odKeys st.disappeared).Nodup := hkeq ▸ hnd
    rcases emptyLoop_ok_mem _ st id hksnd hok hks with ⟨h1, h2⟩ | ⟨h1, h2, h3⟩
    · exact Or.inr (Or.inl ⟨h2, h1⟩)
    · exfalso
      rw [lookupId_eq_none_iff] at h3
      exact h3 hafter
  | cons b bs =>
    by_cases hcmp : (b :: bs).length ≤ st.objectsTracked.length
    · rcases update_ge_id_outcome st (b :: bs) ⟨hkeq, hnd, hbound⟩ (by simp)
          hcmp id hbefore with
        ⟨rc, hrc, hgid, ht, hd⟩ | ⟨hne, hover, hle⟩
      · left
        refine ⟨((b :: bs).map centroidOf).getD rc.2 (0, 0), ?_, ht, hd⟩
        exact getD_mem _ _ _ (acceptedOf_snd_lt st _ (by simp) hrc)
      · by_cases hov : odGet st.disappeared id + 1 > st.maxDisappeared
        · exfalso
          obtain ⟨h1, h2⟩ := hover hov
          rw [lookupId_eq_none_iff] at h1
          exact h1 hafter
        · obtain ⟨h1, h2⟩ := hle hov
          exact Or.inr (Or.inl ⟨h1, h2⟩)
    · have hlt : st.objectsTracked.length < (b :: bs).length := by omega
      obtain ⟨hok', hmem, hcase⟩ := update_lt_id_outcome st (b :: bs)
        ⟨hkeq, hnd, hbound⟩ (by simp) hlt id hbefore
      rcases hcase with ⟨rc, hrc, hgid, ht, hd⟩ | ⟨hne, ht, hd⟩
      · left
        refine ⟨((b :: bs).map centroidOf).getD rc.2 (0, 0), ?_, ht, hd⟩
        exact getD_mem _ _ _ (acceptedOf_snd_lt st _ (by simp) hrc)
      · exact Or.inr (Or.inr ⟨hlt, ht, hd⟩)

/-- C2 amended, witness: a single-object tracker matched against a single
far-away detection takes the "matched" arm of the amended statement. -/
theorem C2_amended_per_call_mutation_witness :
    (∃ c ∈ [((4 : Int), (0 : Int), (4 : Int), (0 : Int))].map centroidOf,
        lookupId (update ⟨2, [(1, (0, 0))], [(1, 0)], 13⟩
          [(4, 0, 4, 0)]).1.objectsTracked 1 = some c ∧
        lookupId (update ⟨2, [(1, (0, 0))], [(1, 0)], 13⟩
          [(4, 0, 4, 0)]).1.disappeared 1 = some 0) ∨
    (lookupId (update ⟨2, [(1, (0, 0))], [(1, 0)], 13⟩
        [(4, 0, 4, 0)]).1.objectsTracked 1 =
      lookupId [((1 : Nat), ((0 : Int), (0 : Int)))] 1 ∧
     lookupId (update ⟨2, [(1, (0, 0))], [(1, 0)], 13⟩
        [(4, 0, 4, 0)]).1.disappeared 1 =
      some (odGet [((1 : Nat), (0 : Nat))] 1 + 1)) ∨
    (([((1 : Nat), ((0 : Int), (0 : Int)))] : List (Nat × Point)).length <
        ([(4, 0, 4, 0)] : List Box).length ∧
     lookupId (update ⟨2, [(1, (0, 0))], [(1, 0)], 13⟩
        [(4, 0, 4, 0)]).1.objectsTracked 1 =
      lookupId [((1 : Nat), ((0 : Int), (0 : Int)))] 1 ∧
     lookupId (update ⟨2, [(1, (0, 0))], [(1, 0)], 13⟩
        [(4, 0, 4, 0)]).1.disappeared 1 =
      lookupId [((1 : Nat), (0 : Nat))] 1) :=
  C2_amended_per_call_mutation ⟨2, [(1, (0, 0))], [(1, 0)], 13⟩ [(4, 0, 4, 0)]
    (by decide) (by decide) 1 (by decide) (by decide)

/-- C10: when the detections strictly outnumber the tracked objects, the call
returns normally, no miss counter is incremented and no object is
deregistered: every previously tracked id is still present afterwards, and
each is either matched (centroid set to some detection's centroid, counter
reset to 0) or left with both of its entries exactly as they were. -/
theorem C10_more_detections_no_decay (st : TrackerState) (rect : List Box)
    (hwf : WF st) (hrect : rect ≠ [])
    (hlt : st.objectsTracked.length < rect.length) :
    (update st rect).2 = none ∧
    ∀ id ∈ odKeys st.objectsTracked,
      id ∈ odKeys (update st rect).1.objectsTracked ∧
      ((∃ c ∈ rect.map centroidOf,
          lookupId (update st rect).1.objectsTracked id = some c ∧
          lookupId (update st rect).1.disappeared id = some 0) ∨
       (lookupId (update st rect).1.objectsTracked id =
          lookupId st.objectsTracked id ∧
        lookupId (update st rect).1.disappeared id =
          lookupId st.disappeared id)) := by
  have hcne : rect.map centroidOf ≠ [] := by
    intro hmap
    exact hrect (List.map_eq_nil_iff.mp hmap)
  by_cases hobj : st.objectsTracked = []
  · constructor
    · rw [update_register_all st rect hrect hobj]
    · intro id hid
      rw [hobj] at hid
      simp [odKeys] at hid
  · refine ⟨(update_lt_final st rect hrect hobj hlt).2, ?_⟩
    intro id hid
    obtain ⟨hok, hmem, hcase⟩ := update_lt_id_outcome st rect hwf hrect hlt id hid
    refine ⟨hmem, ?_⟩
    rcases hcase with ⟨rc, hrc, hgid, ht, hd⟩ | ⟨_, ht, hd⟩
    · left
      exact ⟨_, getD_mem _ _ _ (acceptedOf_snd_lt st _ hcne hrc), ht, hd⟩
    · right
      exact ⟨ht, hd⟩

/-- C10 witness: one object, two detections — the object is matched and both
detections' regime registers rather than decays. -/
theorem C10_more_detections_no_decay_witness :
    (update ⟨2, [(1, (0, 0))], [(1, 3)], 13⟩
        [(0, 0, 2, 0), (50, 50, 50, 50)]).2 = none ∧
    ∀ id ∈ odKeys ([((1 : Nat), ((0 : Int), (0 : Int)))] : List (Nat × Point)),
      id ∈ odKeys (update ⟨2, [(1, (0, 0))], [(1, 3)], 13⟩
          [(0, 0, 2, 0), (50, 50, 50, 50)]).1.objectsTracked ∧
      ((∃ c ∈ [((0 : Int), (0 : Int), (2 : Int), (0 : Int)),
            (50, 50, 50, 50)].map centroidOf,
          lookupId (update ⟨2, [(1, (0, 0))], [(1, 3)], 13⟩
            [(0, 0, 2, 0), (50, 50, 50, 50)]).1.objectsTracked id = some c ∧
          lookupId (update ⟨2, [(1, (0, 0))], [(1, 3)], 13⟩
            [(0, 0, 2, 0), (50, 50, 50, 50)]).1.disappeared id = some 0) ∨
       (lookupId (update ⟨2, [(1, (0, 0))], [(1, 3)], 13⟩
            [(0, 0, 2, 0), (50, 50, 50, 50)]).1.objectsTracked id =
          lookupId [((1 : Nat), ((0 : Int), (0 : Int)))] id ∧
        lookupId (update ⟨2, [(1, (0, 0))], [(1, 3)], 13⟩
            [(0, 0, 2, 0), (50, 50, 50, 50)]).1.disappeared id =
          lookupId [((1 : Nat), (3 : Nat))] id)) :=
  C10_more_detections_no_decay ⟨2, [(1, (0, 0))], [(1, 3)], 13⟩
    [(0, 0, 2, 0), (50, 50, 50, 50)] (by decide) (by decide) (by decide)

lemma missRow_keys_sub (st : TrackerState) (oid id : Nat)
    (h : id ∈ odKeys (missRow st oid).objectsTracked) :
    id ∈ odKeys st.objectsTracked := by
  simp only [missRow] at h
  revert h
  split
  · intro h
    rw [deregister] at h
    simp only [odKeys_odDel] at h
    exact (List.mem_filter.mp h).1
  · intro h
    exact h

lemma foldl_missRow_keys_sub :
    ∀ (l : List Nat) (st : TrackerState) (id : Nat),
      id ∈ odKeys ((l.foldl missRow st).objectsTracked) →
      id ∈ odKeys st.objectsTracked := by
  intro l
  induction l with
  | nil => intro st id h; exact h
  | cons oid rest ih =>
    intro st id h
    rw [List.foldl_cons] at h
    exact missRow_keys_sub st oid id (ih _ id h)

lemma zip_self_map (l : List Nat) (g : Nat → Nat) :
    l.zip (l.map g) = l.map (fun a => (a, g a)) := by
  induction l with
  | nil => rfl
  | cons x xs ih =>
    rw [List.map_cons]
    show (x, g x) :: xs.zip (xs.map g) = _
    rw [ih, List.map_cons]

lemma acceptedPairs_all_skip (ps : List (Nat × Nat)) :
    ∀ ur uc, (∀ rc ∈ ps, rc.2 ∈ uc) → acceptedPairs ps ur uc = [] := by
  induction ps with
  | nil => intro ur uc _; rfl
  | cons rc rest ih =>
    intro ur uc h
    rw [acceptedPairs, if_pos (Or.inr (h rc (List.mem_cons_self _ _)))]
    exact ih ur uc (fun rc' hm => h rc' (List.mem_cons_of_mem _ hm))

lemma colsOf_single (st : TrackerState) (cents : List Point)
    (hm : cents.length = 1) :
    colsOf st cents = (rowsOf st cents).map (fun _ => 0) := by
  rw [colsOf]
  apply List.map_congr_left
  intro r _
  have hne : dRowOf st cents r ≠ [] := by
    intro hnil
    have hl := dRowOf_length st cents r
    rw [hnil, hm] at hl
    simp at hl
  have h1 := argminList_lt_length (dRowOf st cents r) hne
  rw [dRowOf_length, hm] at h1
  omega

lemma acceptedOf_single_col (st : TrackerState) (cents : List Point)
    (hobj : st.objectsTracked ≠ []) (hm : cents.length = 1) :
    ∃ r0, r0 < st.objectsTracked.length ∧ acceptedOf st cents = [(r0, 0)] := by
  have hrows : rowsOf st cents ≠ [] := by
    intro hnil
    have hlen := (rowsOf_perm st cents).length_eq
    rw [hnil, List.length_range] at hlen
    exact hobj (List.length_eq_zero.mp hlen.symm)
  obtain ⟨r0, rest, hcons⟩ := List.exists_cons_of_ne_nil hrows
  refine ⟨r0, ?_, ?_⟩
  · rw [← rowsOf_mem_iff st cents, hcons]
    exact List.mem_cons_self _ _
  · rw [acceptedOf, pairsOf, colsOf_single st cents hm, hcons, zip_self_map,
      List.map_cons, acceptedPairs, if_neg (by simp)]
    rw [acceptedPairs_all_skip _ _ _ ?hall]
    case hall =>
      intro rc hm'
      obtain ⟨a, _, rfl⟩ := List.mem_map.mp hm'
      exact List.mem_cons_self _ _

/-- C7: (general part) whenever detections are present and do not outnumber
the tracked objects, `update` registers nothing: `nextObjectID` is unchanged
and no new id appears.  (Specific part) with exactly 3 tracked objects, 1
detection, and every miss counter safely below the limit, exactly one object
is matched to the detection (centroid replaced, counter reset) and the other
two keep their centroids and get their counters incremented by 1. -/
theorem C7_rows_ge_cols_never_registers :
    (∀ (st : TrackerState) (rect : List Box), rect ≠ [] →
      st.objectsTracked ≠ [] → rect.length ≤ st.objectsTracked.length →
      (update st rect).2 = none ∧
      (update st rect).1.nextObjectID = st.nextObjectID ∧
      ∀ id ∈ odKeys (update st rect).1.objectsTracked,
        id ∈ odKeys st.objectsTracked) ∧
    (∀ (st : TrackerState) (b : Box), WF st → st.objectsTracked.length = 3 →
      (∀ id ∈ odKeys st.disappeared,
        odGet st.disappeared id + 1 ≤ st.maxDisappeared) →
      (update st [b]).2 = none ∧
      (update st [b]).1.nextObjectID = st.nextObjectID ∧
      ∃ idm ∈ odKeys st.objectsTracked,
        lookupId (update st [b]).1.objectsTracked idm = some (centroidOf b) ∧
        lookupId (update st [b]).1.disappeared idm = some 0 ∧
        ∀ id' ∈ odKeys st.objectsTracked, id' ≠ idm →
          lookupId (update st [b]).1.objectsTracked id' =
            lookupId st.objectsTracked id' ∧
          lookupId (update st [b]).1.disappeared id' =
            some (odGet st.disappeared id' + 1)) := by
  have hgen : ∀ (st : TrackerState) (rect : List Box), rect ≠ [] →
      st.objectsTracked ≠ [] → rect.length ≤ st.objectsTracked.length →
      (update st rect).2 = none ∧
      (update st rect).1.nextObjectID = st.nextObjectID ∧
      ∀ id ∈ odKeys (update st rect).1.objectsTracked,
        id ∈ odKeys st.objectsTracked := by
    intro st rect hrect hobj hge
    obtain ⟨hfin, hok⟩ := update_ge_final st rect hrect hobj hge
    refine ⟨hok, ?_, ?_⟩
    · rw [hfin, foldl_missRow_nextId]
    · intro id hid
      rw [hfin] at hid
      have h1 := foldl_missRow_keys_sub _ _ id hid
      have h2 := matchAcc_tracked_keys st (rect.map centroidOf)
      exact h2 ▸ h1
  refine ⟨hgen, ?_⟩
  intro st b hwf h3 hsafe
  have hobj : st.objectsTracked ≠ [] := by
    intro he
    rw [he] at h3
    simp at h3
  have hge : ([b] : List Box).length ≤ st.objectsTracked.length := by
    rw [h3]
    simp
  obtain ⟨hok, hnid, _⟩ := hgen st [b] (by simp) hobj hge
  obtain ⟨hkeq, hnd, hbound⟩ := hwf
  have hm1 : ([b].map centroidOf).length = 1 := by simp
  obtain ⟨r0, hr0, hacc⟩ := acceptedOf_single_col st ([b].map centroidOf) hobj hm1
  have hr0' : r0 < (trackedIds st).length := by rwa [trackedIds_length]
  have hmemid : (trackedIds st).getD r0 0 ∈ odKeys st.objectsTracked :=
    getD_mem _ _ _ hr0'
  refine ⟨hok, hnid, (trackedIds st).getD r0 0, hmemid, ?_, ?_, ?_⟩
  · rcases update_ge_id_outcome st [b] ⟨hkeq, hnd, hbound⟩ (by simp) hge
        ((trackedIds st).getD r0 0) hmemid with
      ⟨rc, hrc, hgid, ht, hd⟩ | ⟨hne, _, _⟩
    · rw [hacc] at hrc
      have : rc = (r0, 0) := by simpa using hrc
      subst this
      exact ht
    · exfalso
      exact hne (r0, 0) (by rw [hacc]; exact List.mem_cons_self _ _) rfl
  · rcases update_ge_id_outcome st [b] ⟨hkeq, hnd, hbound⟩ (by simp) hge
        ((trackedIds st).getD r0 0) hmemid with
      ⟨rc, hrc, hgid, ht, hd⟩ | ⟨hne, _, _⟩
    · exact hd
    · exfalso
      exact hne (r0, 0) (by rw [hacc]; exact List.mem_cons_self _ _) rfl
  · intro id' hid' hneq
    rcases update_ge_id_outcome st [b] ⟨hkeq, hnd, hbound⟩ (by simp) hge
        id' hid' with
      ⟨rc, hrc, hgid, ht, hd⟩ | ⟨hne, hover, hle⟩
    · exfalso
      rw [hacc] at hrc
      have : rc = (r0, 0) := by simpa using hrc
      subst this
      exact hneq hgid.symm
    · have hsafe' := hsafe id' (hkeq ▸ hid')
      have hnotover : ¬ odGet st.disappeared id' + 1 > st.maxDisappeared := by
        omega
      exact hle hnotover

/-- C7 witness: a concrete 3-object, 1-detection call taking the specific
part of the theorem. -/
theorem C7_rows_ge_cols_never_registers_witness :
    (update ⟨4, [(1, (0, 0)), (2, (10, 0)), (3, (20, 0))],
        [(1, 0), (2, 0), (3, 0)], 13⟩ [(9, 0, 9, 0)]).2 = none ∧
    (update ⟨4, [(1, (0, 0)), (2, (10, 0)), (3, (20, 0))],
        [(1, 0), (2, 0), (3, 0)], 13⟩ [(9, 0, 9, 0)]).1.nextObjectID = 4 ∧
    ∃ idm ∈ odKeys ([(1, ((0 : Int), (0 : Int))), (2, (10, 0)), (3, (20, 0))] :
        List (Nat × Point)),
      lookupId (update ⟨4, [(1, (0, 0)), (2, (10, 0)), (3, (20, 0))],
          [(1, 0), (2, 0), (3, 0)], 13⟩ [(9, 0, 9, 0)]).1.objectsTracked idm =
        some (centroidOf (9, 0, 9, 0)) ∧
      lookupId (update ⟨4, [(1, (0, 0)), (2, (10, 0)), (3, (20, 0))],
          [(1, 0), (2, 0), (3, 0)], 13⟩ [(9, 0, 9, 0)]).1.disappeared idm =
        some 0 ∧
      ∀ id' ∈ odKeys ([(1, ((0 : Int), (0 : Int))), (2, (10, 0)), (3, (20, 0))] :
          List (Nat × Point)), id' ≠ idm →
        lookupId (update ⟨4, [(1, (0, 0)), (2, (10, 0)), (3, (20, 0))],
            [(1, 0), (2, 0), (3, 0)], 13⟩ [(9, 0, 9, 0)]).1.objectsTracked id' =
          lookupId [(1, ((0 : Int), (0 : Int))), (2, (10, 0)), (3, (20, 0))] id' ∧
        lookupId (update ⟨4, [(1, (0, 0)), (2, (10, 0)), (3, (20, 0))],
            [(1, 0), (2, 0), (3, 0)], 13⟩ [(9, 0, 9, 0)]).1.disappeared id' =
          some (odGet [((1 : Nat), (0 : Nat)), (2, 0), (3, 0)] id' + 1) := by
  have h := (C7_rows_ge_cols_never_registers).2
    ⟨4, [(1, (0, 0)), (2, (10, 0)), (3, (20, 0))], [(1, 0), (2, 0), (3, 0)], 13⟩
    (9, 0, 9, 0) (by decide) (by decide) (by decide)
  exact h

/-! ### Counting unused columns (for C3) -/

lemma length_filter_split {α : Type} (p : α → Bool) :
    ∀ l : List α,
      (l.filter p).length + (l.filter (fun a => !(p a))).length = l.length := by
  intro l
  induction l with
  | nil => rfl
  | cons x xs ih =>
    rw [List.filter_cons, List.filter_cons]
    cases hpx : p x
    · rw [if_neg (by simp [hpx]), if_pos (by simp [hpx]), List.length_cons,
        List.length_cons]
      omega
    · rw [if_pos (by simp [hpx]), if_neg (by simp [hpx]), List.length_cons,
        List.length_cons]
      omega

lemma unusedCols_length (st : TrackerState) (cents : List Point)
    (hc : cents ≠ []) :
    ((List.range cents.length).filter
        (fun c => c ∉ (matchAccOf st cents).usedCols)).length =
      cents.length - (acceptedOf st cents).length := by
  have hsplit := length_filter_split
    (fun c => decide (c ∈ (matchAccOf st cents).usedCols)) (List.range cents.length)
  have hfun : (fun c => decide (c ∉ (matchAccOf st cents).usedCols)) =
      (fun c => !(decide (c ∈ (matchAccOf st cents).usedCols))) := by
    funext c
    rw [decide_not]
  have hperm : List.Perm
      ((List.range cents.length).filter
        (fun c => decide (c ∈ (matchAccOf st cents).usedCols)))
      ((acceptedOf st cents).map Prod.snd) := by
    apply (List.perm_ext_iff_of_nodup ((List.nodup_range _).filter _)
      (acceptedPairs_snd_nodup _ _ _)).mpr
    intro c
    rw [List.mem_filter, List.mem_range]
    constructor
    · rintro ⟨_, h2⟩
      rw [decide_eq_true_eq] at h2
      exact (matchAcc_usedCols_mem st cents c).mp h2
    · intro h
      obtain ⟨rc, hrc, rfl⟩ := List.mem_map.mp h
      refine ⟨acceptedOf_snd_lt st cents hc hrc, ?_⟩
      rw [decide_eq_true_eq]
      exact (matchAcc_usedCols_mem st cents rc.2).mpr h
  have hlen1 : ((List.range cents.length).filter
      (fun c => decide (c ∈ (matchAccOf st cents).usedCols))).length =
        (acceptedOf st cents).length := by
    rw [hperm.length_eq, List.length_map]
  have : ((List.range cents.length).filter
      (fun c => c ∉ (matchAccOf st cents).usedCols)).length =
      ((List.range cents.length).filter
        (fun c => !(decide (c ∈ (matchAccOf st cents).usedCols)))).length := by
    rw [hfun]
  rw [this]
  have hr := List.length_range cents.length
  omega

lemma full_rows_mem (l : List Nat) (n : Nat) (hnd : l.Nodup)
    (hsub : ∀ x ∈ l, x < n) (hlen : l.length = n) (r : Nat) (hr : r < n) :
    r ∈ l := by
  have hsp := List.subperm_of_subset hnd
    (fun x hx => List.mem_range.mpr (hsub x hx))
  have hperm := hsp.perm_of_length_le (by rw [hlen, List.length_range])
  exact hperm.mem_iff.mpr (List.mem_range.mpr hr)

/-- C3 amended: with exactly 2 tracked objects and 3 detections, IF the
greedy pass accepts two pairs (the two objects' arg-min columns do not
collide), then exactly one new id is registered — `nextObjectID` advances by
exactly 1, the id set gains exactly the old `nextObjectID` — and each of the
2 existing ids is updated to some detection's centroid with its counter
reset.  (Determinism given identical input ordering holds definitionally:
the embedded `update` is a function of the state and the input list.)  The
hypothesis is necessary: when both objects' arg-min columns collide, two new
ids are registered (see the C3 counterexample). -/
theorem C3_amended_two_plus_three (st : TrackerState) (rect : List Box)
    (hwf : WF st) (h2 : st.objectsTracked.length = 2) (h3 : rect.length = 3)
    (hacc2 : (acceptedOf st (rect.map centroidOf)).length = 2) :
    (update st rect).2 = none ∧
    (update st rect).1.nextObjectID = st.nextObjectID + 1 ∧
    odKeys (update st rect).1.objectsTracked =
      odKeys st.objectsTracked ++ [st.nextObjectID] ∧
    ∀ id ∈ odKeys st.objectsTracked, ∃ c ∈ rect.map centroidOf,
      lookupId (update st rect).1.objectsTracked id = some c ∧
      lookupId (update st rect).1.disappeared id = some 0 := by
  obtain ⟨hkeq, hnd, hbound⟩ := hwf
  have hrect : rect ≠ [] := by
    intro he
    rw [he] at h3
    simp at h3
  have hobj : st.objectsTracked ≠ [] := by
    intro he
    rw [he] at h2
    simp at h2
  have hlt : st.objectsTracked.length < rect.length := by omega
  have hcne : rect.map centroidOf ≠ [] := fun hmap =>
    hrect (List.map_eq_nil_iff.mp hmap)
  obtain ⟨hfin, hok⟩ := update_lt_final st rect hrect hobj hlt
  have hclen : (rect.map centroidOf).length = 3 := by
    rw [List.length_map, h3]
  have hcount := unusedCols_length st (rect.map centroidOf) hcne
  have hnewlen : (((List.range (rect.map centroidOf).length).filter
      (fun c => c ∉ (matchAccOf st (rect.map centroidOf)).usedCols)).map
        (fun c => (rect.map centroidOf).getD c (0, 0))).length = 1 := by
    rw [List.length_map, hcount, hacc2, hclen]
  have hA : ∀ id ∈ odKeys
      ({ st with
          objectsTracked := (matchAccOf st (rect.map centroidOf)).objectsTracked,
          disappeared := (matchAccOf st (rect.map centroidOf)).disappeared }
        : TrackerState).objectsTracked,
      id < st.nextObjectID := by
    intro id h
    exact hbound id (matchAcc_tracked_keys st (rect.map centroidOf) ▸ h)
  have hB : ∀ id ∈ odKeys
      ({ st with
          objectsTracked := (matchAccOf st (rect.map centroidOf)).objectsTracked,
          disappeared := (matchAccOf st (rect.map centroidOf)).disappeared }
        : TrackerState).disappeared,
      id < st.nextObjectID := by
    intro id h
    have h' : id ∈ odKeys st.disappeared :=
      matchAcc_disap_keys st (rect.map centroidOf) hkeq ▸ h
    exact hbound id (hkeq ▸ h')
  have hreg := foldl_register_eq
    (((List.range (rect.map centroidOf).length).filter
      (fun c => c ∉ (matchAccOf st (rect.map centroidOf)).usedCols)).map
        (fun c => (rect.map centroidOf).getD c (0, 0)))
    ({ st with
        objectsTracked := (matchAccOf st (rect.map centroidOf)).objectsTracked,
        disappeared := (matchAccOf st (rect.map centroidOf)).disappeared })
    hA hB
  rw [hnewlen] at hreg
  refine ⟨hok, ?_, ?_, ?_⟩
  · rw [hfin, hreg]
  · rw [hfin, hreg]
    show odKeys
        ((matchAccOf st (rect.map centroidOf)).objectsTracked ++
          (List.range 1).map _) = _
    rw [odKeys_append, matchAcc_tracked_keys st (rect.map centroidOf)]
    rfl
  · intro id hid
    obtain ⟨hok', hmem, hcase⟩ := update_lt_id_outcome st rect
      ⟨hkeq, hnd, hbound⟩ hrect hlt id hid
    rcases hcase with ⟨rc, hrc, hgid, ht, hd⟩ | ⟨hne, _, _⟩
    · exact ⟨_, getD_mem _ _ _ (acceptedOf_snd_lt st _ hcne hrc), ht, hd⟩
    · exfalso
      obtain ⟨r, hrlen, hgetD⟩ := getD_index_of_mem (trackedIds st) id hid
      rw [trackedIds_length] at hrlen
      have hsubr : ∀ x ∈ (acceptedOf st (rect.map centroidOf)).map Prod.fst,
          x < st.objectsTracked.length := by
        intro x hx
        obtain ⟨rc, hrc, rfl⟩ := List.mem_map.mp hx
        exact acceptedOf_fst_lt st _ hrc
      have hlenfst :
          ((acceptedOf st (rect.map centroidOf)).map Prod.fst).length =
            st.objectsTracked.length := by
        rw [List.length_map, hacc2, h2]
      have hrmem := full_rows_mem _ st.objectsTracked.length
        (acceptedPairs_fst_nodup _ _ _) hsubr hlenfst r hrlen
      obtain ⟨rc, hrc, hrc1⟩ := List.mem_map.mp hrmem
      exact hne rc hrc (by rw [hrc1]; exact hgetD)

/-- C3 amended, witness: two objects at (0,0) and (10,0), three detections at
(0,0), (10,0), (50,50): both objects match distinct detections, so exactly
one new id (3) is registered. -/
theorem C3_amended_two_plus_three_witness :
    (update ⟨3, [(1, (0, 0)), (2, (10, 0))], [(1, 0), (2, 0)], 13⟩
        [(0, 0, 0, 0), (10, 0, 10, 0), (50, 50, 50, 50)]).2 = none ∧
    (update ⟨3, [(1, (0, 0)), (2, (10, 0))], [(1, 0), (2, 0)], 13⟩
        [(0, 0, 0, 0), (10, 0, 10, 0), (50, 50, 50, 50)]).1.nextObjectID =
      3 + 1 ∧
    odKeys (update ⟨3, [(1, (0, 0)), (2, (10, 0))], [(1, 0), (2, 0)], 13⟩
        [(0, 0, 0, 0), (10, 0, 10, 0), (50, 50, 50, 50)]).1.objectsTracked =
      odKeys ([(1, ((0 : Int), (0 : Int))), (2, (10, 0))] : List (Nat × Point))
        ++ [3] ∧
    ∀ id ∈ odKeys ([(1, ((0 : Int), (0 : Int))), (2, (10, 0))] :
        List (Nat × Point)),
      ∃ c ∈ [((0 : Int), (0 : Int), (0 : Int), (0 : Int)), (10, 0, 10, 0),
          (50, 50, 50, 50)].map centroidOf,
        lookupId (update ⟨3, [(1, (0, 0)), (2, (10, 0))], [(1, 0), (2, 0)], 13⟩
          [(0, 0, 0, 0), (10, 0, 10, 0), (50, 50, 50, 50)]).1.objectsTracked
            id = some c ∧
        lookupId (update ⟨3, [(1, (0, 0)), (2, (10, 0))], [(1, 0), (2, 0)], 13⟩
          [(0, 0, 0, 0), (10, 0, 10, 0), (50, 50, 50, 50)]).1.disappeared id =
          some 0 :=
  C3_amended_two_plus_three ⟨3, [(1, (0, 0)), (2, (10, 0))], [(1, 0), (2, 0)], 13⟩
    [(0, 0, 0, 0), (10, 0, 10, 0), (50, 50, 50, 50)]
    (by decide) (by decide) (by decide) (by decide)

/-- C4: the matching pass has exactly the described structure.  `rowsOf` (the
walk order) is a permutation of all row indices sorted ascending by each
row's minimum distance; every row is paired with its arg-min column (`colsOf`
is definitionally that map, and the paired column really attains the row
minimum); a pair whose row or column was already consumed is skipped — so
the accepted pairs form a subsequence of the walk with pairwise-distinct rows
and pairwise-distinct columns — and each accepted pair sets that object's
centroid to the detection's centroid and its counter to 0. -/
theorem C4_matching_pass_structure (st : TrackerState) (rect : List Box)
    (hwf : WF st) (hobj : st.objectsTracked ≠ []) (hrect : rect ≠ []) :
    List.Perm (rowsOf st (rect.map centroidOf))
      (List.range st.objectsTracked.length) ∧
    (rowsOf st (rect.map centroidOf)).Pairwise
      (fun r r' => minList (dRowOf st (rect.map centroidOf) r) ≤
        minList (dRowOf st (rect.map centroidOf) r')) ∧
    colsOf st (rect.map centroidOf) =
      (rowsOf st (rect.map centroidOf)).map
        (fun r => argminList (dRowOf st (rect.map centroidOf) r)) ∧
    (∀ r ∈ rowsOf st (rect.map centroidOf),
      ∀ c < (rect.map centroidOf).length,
        (dRowOf st (rect.map centroidOf) r).getD
          (argminList (dRowOf st (rect.map centroidOf) r)) 0 ≤
        (dRowOf st (rect.map centroidOf) r).getD c 0) ∧
    ((acceptedOf st (rect.map centroidOf)).map Prod.fst).Nodup ∧
    ((acceptedOf st (rect.map centroidOf)).map Prod.snd).Nodup ∧
    (acceptedOf st (rect.map centroidOf)).Sublist
      (pairsOf st (rect.map centroidOf)) ∧
    (∀ rc ∈ acceptedOf st (rect.map centroidOf),
      lookupId (matchAccOf st (rect.map centroidOf)).objectsTracked
          ((trackedIds st).getD rc.1 0) =
        some ((rect.map centroidOf).getD rc.2 (0, 0)) ∧
      lookupId (matchAccOf st (rect.map centroidOf)).disappeared
          ((trackedIds st).getD rc.1 0) = some 0) := by
  obtain ⟨hkeq, hnd, hbound⟩ := hwf
  have hcne : rect.map centroidOf ≠ [] := fun hmap =>
    hrect (List.map_eq_nil_iff.mp hmap)
  refine ⟨rowsOf_perm st _, argsortBy_pairwise _ _, rfl, ?_, ?_, ?_, ?_, ?_⟩
  · intro r _ c hc
    have hdne : dRowOf st (rect.map centroidOf) r ≠ [] := by
      intro hnil
      have hl := dRowOf_length st (rect.map centroidOf) r
      rw [hnil] at hl
      simp only [List.length_nil] at hl
      exact hcne (List.length_eq_zero.mp hl.symm)
    rw [getD_argminList _ hdne]
    exact minList_le_getD _ c (by rwa [dRowOf_length])
  · exact acceptedPairs_fst_nodup _ _ _
  · exact acceptedPairs_snd_nodup _ _ _
  · exact acceptedPairs_sublist _ _ _
  · intro rc hrc
    exact ⟨matchAcc_tracked_of_accepted st _ hnd hrc,
      matchAcc_disap_of_accepted st _ hnd hrc⟩

/-- C4 witness: the structure theorem applied at a concrete two-object,
two-detection state. -/
theorem C4_matching_pass_structure_witness :
    List.Perm (rowsOf ⟨3, [(1, (0, 0)), (2, (9, 0))], [(1, 0), (2, 0)], 13⟩
        ([(8, 0, 8, 0), (1, 0, 1, 0)].map centroidOf))
      (List.range ([(1, ((0 : Int), (0 : Int))), (2, (9, 0))] :
        List (Nat × Point)).length) ∧
    (rowsOf ⟨3, [(1, (0, 0)), (2, (9, 0))], [(1, 0), (2, 0)], 13⟩
        ([(8, 0, 8, 0), (1, 0, 1, 0)].map centroidOf)).Pairwise
      (fun r r' =>
        minList (dRowOf ⟨3, [(1, (0, 0)), (2, (9, 0))], [(1, 0), (2, 0)], 13⟩
          ([(8, 0, 8, 0), (1, 0, 1, 0)].map centroidOf) r) ≤
        minList (dRowOf ⟨3, [(1, (0, 0)), (2, (9, 0))], [(1, 0), (2, 0)], 13⟩
          ([(8, 0, 8, 0), (1, 0, 1, 0)].map centroidOf) r')) ∧
    colsOf ⟨3, [(1, (0, 0)), (2, (9, 0))], [(1, 0), (2, 0)], 13⟩
        ([(8, 0, 8, 0), (1, 0, 1, 0)].map centroidOf) =
      (rowsOf ⟨3, [(1, (0, 0)), (2, (9, 0))], [(1, 0), (2, 0)], 13⟩
        ([(8, 0, 8, 0), (1, 0, 1, 0)].map centroidOf)).map
        (fun r => argminList
          (dRowOf ⟨3, [(1, (0, 0)), (2, (9, 0))], [(1, 0), (2, 0)], 13⟩
            ([(8, 0, 8, 0), (1, 0, 1, 0)].map centroidOf) r)) ∧
    (∀ r ∈ rowsOf ⟨3, [(1, (0, 0)), (2, (9, 0))], [(1, 0), (2, 0)], 13⟩
        ([(8, 0, 8, 0), (1, 0, 1, 0)].map centroidOf),
      ∀ c < ([(8, 0, 8, 0), (1, 0, 1, 0)].map centroidOf).length,
        (dRowOf ⟨3, [(1, (0, 0)), (2, (9, 0))], [(1, 0), (2, 0)], 13⟩
          ([(8, 0, 8, 0), (1, 0, 1, 0)].map centroidOf) r).getD
          (argminList (dRowOf ⟨3, [(1, (0, 0)), (2, (9, 0))], [(1, 0), (2, 0)], 13⟩
            ([(8, 0, 8, 0), (1, 0, 1, 0)].map centroidOf) r)) 0 ≤
        (dRowOf ⟨3, [(1, (0, 0)), (2, (9, 0))], [(1, 0), (2, 0)], 13⟩
          ([(8, 0, 8, 0), (1, 0, 1, 0)].map centroidOf) r).getD c 0) ∧
    ((acceptedOf ⟨3, [(1, (0, 0)), (2, (9, 0))], [(1, 0), (2, 0)], 13⟩
        ([(8, 0, 8, 0), (1, 0, 1, 0)].map centroidOf)).map Prod.fst).Nodup ∧
    ((acceptedOf ⟨3, [(1, (0, 0)), (2, (9, 0))], [(1, 0), (2, 0)], 13⟩
        ([(8, 0, 8, 0), (1, 0, 1, 0)].map centroidOf)).map Prod.snd).Nodup ∧
    (acceptedOf ⟨3, [(1, (0, 0)), (2, (9, 0))], [(1, 0), (2, 0)], 13⟩
        ([(8, 0, 8, 0), (1, 0, 1, 0)].map centroidOf)).Sublist
      (pairsOf ⟨3, [(1, (0, 0)), (2, (9, 0))], [(1, 0), (2, 0)], 13⟩
        ([(8, 0, 8, 0), (1, 0, 1, 0)].map centroidOf)) ∧
    (∀ rc ∈ acceptedOf ⟨3, [(1, (0, 0)), (2, (9, 0))], [(1, 0), (2, 0)], 13⟩
        ([(8, 0, 8, 0), (1, 0, 1, 0)].map centroidOf),
      lookupId (matchAccOf ⟨3, [(1, (0, 0)), (2, (9, 0))], [(1, 0), (2, 0)], 13⟩
          ([(8, 0, 8, 0), (1, 0, 1, 0)].map centroidOf)).objectsTracked
          ((trackedIds ⟨3, [(1, (0, 0)), (2, (9, 0))], [(1, 0), (2, 0)], 13⟩).getD
            rc.1 0) =
        some (([(8, 0, 8, 0), (1, 0, 1, 0)].map centroidOf).getD rc.2 (0, 0)) ∧
      lookupId (matchAccOf ⟨3, [(1, (0, 0)), (2, (9, 0))], [(1, 0), (2, 0)], 13⟩
          ([(8, 0, 8, 0), (1, 0, 1, 0)].map centroidOf)).disappeared
          ((trackedIds ⟨3, [(1, (0, 0)), (2, (9, 0))], [(1, 0), (2, 0)], 13⟩).getD
            rc.1 0) = some 0) :=
  C4_matching_pass_structure ⟨3, [(1, (0, 0)), (2, (9, 0))], [(1, 0), (2, 0)], 13⟩
    [(8, 0, 8, 0), (1, 0, 1, 0)] (by decide) (by decide) (by decide)

/-! ### Trace lemmas (for C9) -/

lemma foldl_register_ids_lt :
    ∀ (cs : List Point) (st : TrackerState),
      (∀ id ∈ odKeys st.objectsTracked, id < st.nextObjectID) →
      ∀ id ∈ odKeys (cs.foldl register st).objectsTracked,
        id < (cs.foldl register st).nextObjectID := by
  intro cs
  induction cs with
  | nil => intro st h; exact h
  | cons c cs ih =>
    intro st h
    rw [List.foldl_cons]
    apply ih
    intro id hid
    rw [register_nextId]
    rcases register_ids st c id hid with hm | he
    · have := h id hm
      omega
    · omega

lemma updateSt_nextId_mono (st : TrackerState) (rect : List Box) :
    st.nextObjectID ≤ (updateSt st rect).nextObjectID := by
  cases rect with
  | nil =>
    unfold updateSt
    rw [update_empty_eq, emptyLoop_nextId]
  | cons b bs =>
    by_cases hobj : st.objectsTracked = []
    · unfold updateSt
      rw [update_register_all st _ (by simp) hobj]
      show st.nextObjectID ≤ (((b :: bs).map centroidOf).foldl register st).nextObjectID
      rw [foldl_register_nextId]
      omega
    · by_cases hge : (b :: bs).length ≤ st.objectsTracked.length
      · obtain ⟨hfin, _⟩ := update_ge_final st _ (by simp) hobj hge
        unfold updateSt
        rw [hfin, foldl_missRow_nextId]
      · have hlt : st.objectsTracked.length < (b :: bs).length := by omega
        obtain ⟨hfin, _⟩ := update_lt_final st _ (by simp) hobj hlt
        unfold updateSt
        rw [hfin, foldl_register_nextId]
        exact Nat.le_add_right _ _

lemma updateSt_ids_lt (st : TrackerState) (rect : List Box)
    (h : ∀ id ∈ odKeys st.objectsTracked, id < st.nextObjectID) :
    ∀ id ∈ odKeys (updateSt st rect).objectsTracked,
      id < (updateSt st rect).nextObjectID := by
  cases rect with
  | nil =>
    intro id hid
    unfold updateSt at *
    rw [update_empty_eq] at hid ⊢
    rw [emptyLoop_nextId]
    exact h id (emptyLoop_tracked_keys _ _ _ hid)
  | cons b bs =>
    by_cases hobj : st.objectsTracked = []
    · intro id hid
      unfold updateSt at *
      rw [update_register_all st _ (by simp) hobj] at hid ⊢
      exact foldl_register_ids_lt _ st h id hid
    · by_cases hge : (b :: bs).length ≤ st.objectsTracked.length
      · intro id hid
        obtain ⟨hfin, _⟩ := update_ge_final st _ (by simp) hobj hge
        unfold updateSt at *
        rw [hfin] at hid ⊢
        rw [foldl_missRow_nextId]
        have h1 := foldl_missRow_keys_sub _ _ id hid
        have h2 := matchAcc_tracked_keys st ((b :: bs).map centroidOf)
        exact h id (h2 ▸ h1)
      · intro id hid
        have hlt : st.objectsTracked.length < (b :: bs).length := by omega
        obtain ⟨hfin, _⟩ := update_lt_final st _ (by simp) hobj hlt
        unfold updateSt at *
        rw [hfin] at hid ⊢
        apply foldl_register_ids_lt _ _ ?_ id hid
        intro id' hid'
        have h2 := matchAcc_tracked_keys st ((b :: bs).map centroidOf)
        exact h id' (h2 ▸ hid')

lemma updateSt_ids_new (st : TrackerState) (rect : List Box) (id : Nat)
    (hid : id ∈ odKeys (updateSt st rect).objectsTracked) :
    id ∈ odKeys st.objectsTracked ∨ st.nextObjectID ≤ id := by
  cases rect with
  | nil =>
    unfold updateSt at hid
    rw [update_empty_eq] at hid
    exact Or.inl (emptyLoop_tracked_keys _ _ _ hid)
  | cons b bs =>
    by_cases hobj : st.objectsTracked = []
    · unfold updateSt at hid
      rw [update_register_all st _ (by simp) hobj] at hid
      exact foldl_register_ids _ st id hid
    · by_cases hge : (b :: bs).length ≤ st.objectsTracked.length
      · obtain ⟨hfin, _⟩ := update_ge_final st _ (by simp) hobj hge
        unfold updateSt at hid
        rw [hfin] at hid
        have h1 := foldl_missRow_keys_sub _ _ id hid
        exact Or.inl (matchAcc_tracked_keys st _ ▸ h1)
      · have hlt : st.objectsTracked.length < (b :: bs).length := by omega
        obtain ⟨hfin, _⟩ := update_lt_final st _ (by simp) hobj hlt
        unfold updateSt at hid
        rw [hfin] at hid
        rcases foldl_register_ids _ _ id hid with hm | hge'
        · exact Or.inl (matchAcc_tracked_keys st _ ▸ hm)
        · exact Or.inr hge'

lemma runFrames_nextId_mono :
    ∀ (fs : List (List Box)) (st : TrackerState),
      st.nextObjectID ≤ (runFrames st fs).nextObjectID := by
  intro fs
  induction fs with
  | nil => intro st; exact le_rfl
  | cons f fs ih =>
    intro st
    exact le_trans (updateSt_nextId_mono st f) (ih (updateSt st f))

lemma runFrames_ids_lt :
    ∀ (fs : List (List Box)) (st : TrackerState),
      (∀ id ∈ odKeys st.objectsTracked, id < st.nextObjectID) →
      ∀ id ∈ odKeys (runFrames st fs).objectsTracked,
        id < (runFrames st fs).nextObjectID := by
  intro fs
  induction fs with
  | nil => intro st h; exact h
  | cons f fs ih =>
    intro st h
    exact ih (updateSt st f) (updateSt_ids_lt st f h)

lemma runFrames_absent :
    ∀ (fs : List (List Box)) (st : TrackerState) (id : Nat),
      id ∉ odKeys st.objectsTracked → id < st.nextObjectID →
      id ∉ odKeys (runFrames st fs).objectsTracked := by
  intro fs
  induction fs with
  | nil => intro st id h1 _; exact h1
  | cons f fs ih =>
    intro st id h1 h2
    apply ih (updateSt st f) id
    · intro hmem
      rcases updateSt_ids_new st f id hmem with hm | hge
      · exact h1 hm
      · omega
    · exact lt_of_lt_of_le h2 (updateSt_nextId_mono st f)

lemma runFrames_take_split (st0 : TrackerState) (frames : List (List Box))
    (i j : Nat) (hij : i ≤ j) :
    runFrames st0 (frames.take j) =
      runFrames (runFrames st0 (frames.take i)) ((frames.drop i).take (j - i)) := by
  rw [runFrames, runFrames, runFrames, ← List.foldl_append, ← List.take_add]
  have h : i + (j - i) = j := by omega
  rw [h]

/-- C9: along any run of `update` calls from a fresh tracker, `nextObjectID`
never decreases, every currently tracked id is strictly below it, and an id
that has disappeared never comes back: if `id` is tracked after `i` frames
and no longer tracked after `j ≥ i` frames, it is still absent after every
`k ≥ j` frames — no id is ever reissued. -/
theorem C9_id_monotonicity (mx : Nat) (frames : List (List Box))
    (i j k id : Nat) (hij : i ≤ j) (hjk : j ≤ k) :
    (runFrames (mkTracker mx) (frames.take i)).nextObjectID ≤
      (runFrames (mkTracker mx) (frames.take j)).nextObjectID ∧
    (∀ id' ∈ odKeys (runFrames (mkTracker mx) (frames.take j)).objectsTracked,
      id' < (runFrames (mkTracker mx) (frames.take j)).nextObjectID) ∧
    (id ∈ odKeys (runFrames (mkTracker mx) (frames.take i)).objectsTracked →
     id ∉ odKeys (runFrames (mkTracker mx) (frames.take j)).objectsTracked →
     id ∉ odKeys (runFrames (mkTracker mx) (frames.take k)).objectsTracked) := by
  have hInv0 : ∀ id' ∈ odKeys (mkTracker mx).objectsTracked,
      id' < (mkTracker mx).nextObjectID := by
    intro id' h
    simp [mkTracker, odKeys] at h
  refine ⟨?_, ?_, ?_⟩
  · rw [runFrames_take_split (mkTracker mx) frames i j hij]
    exact runFrames_nextId_mono _ _
  · exact runFrames_ids_lt _ _ hInv0
  · intro hin hout
    rw [runFrames_take_split (mkTracker mx) frames j k hjk]
    apply runFrames_absent _ _ id hout
    have hlt : id < (runFrames (mkTracker mx) (frames.take i)).nextObjectID :=
      runFrames_ids_lt _ _ hInv0 id hin
    refine lt_of_lt_of_le hlt ?_
    rw [runFrames_take_split (mkTracker mx) frames i j hij]
    exact runFrames_nextId_mono _ _

/-- C9 witness: the monotonicity conjunct at a concrete two-frame trace. -/
theorem C9_id_monotonicity_witness :
    (runFrames (mkTracker 13) ([[((0 : Int), (0 : Int), (2 : Int), (2 : Int))],
        []].take 0)).nextObjectID ≤
      (runFrames (mkTracker 13) ([[((0 : Int), (0 : Int), (2 : Int), (2 : Int))],
        []].take 1)).nextObjectID :=
  (C9_id_monotonicity 13 [[(0, 0, 2, 2)], []] 0 1 2 1
    (by decide) (by decide)).1

end FaceTracker
